import Mathlib

/-!
# PoET service: rounds and the challenge-verifier stack

A shallow embedding of

* `service/round.go`: the per-round state, `submit`, `execute`,
  `recoverExecution`, `proof`, `calcMembersAndStatement`, `saveState`;
* `gateway/challenge_verifier/verifier.go`: the round-robin and the caching
  challenge verifier;
* `types/errors.go`: the two sentinel errors.

Go values are embedded as follows.

* `[]byte` contents are lists of bytes; a slice whose nil-ness the code tests
  (`Members`, `Statement`, a returned hash) is an `Option`, `none` being nil.
* `error` is `Option Error`, `none` being nil.
* A method with a pointer receiver takes the receiver and returns the updated
  receiver next to its Go results.
* A call that does not return normally is an `Outcome`: it panicked, or it
  waits for a mutex or channel that nothing in the sequential run releases.
* What the environment decides (the clock, whether a write to disk fails, what
  a downstream verifier answers) is an explicit argument.
-/

namespace Poet

/-! ## Bytes, errors, outcomes -/

/-- Contents of a Go `[]byte`. -/
abbrev Bytes := List (Fin 256)

/-- Go `error` values: the two sentinels of `types/errors.go`, an error made by
`errors.New` or by `fmt.Errorf` without `%w`, and an error that wraps another
one (`fmt.Errorf` with `%w`). -/
inductive Error where
  | ErrChallengeInvalid
  | ErrCouldNotVerify
  | new (msg : String)
  | wrap (msg : String) (inner : Error)
  deriving DecidableEq, Repr

/-- The text `err.Error()`. -/
def Error.text : Error → String
  | .ErrChallengeInvalid => "challenge is invalid"
  | .ErrCouldNotVerify => "could not verify the challenge"
  | .new msg => msg
  | .wrap msg inner => msg ++ inner.text

/-- Go `errors.Is(err, target)` for a non-nil `err`: `err` is `target`, or
wraps an error that is. -/
def errorsIs : Error → Error → Bool
  | .wrap msg inner, target =>
      decide (Error.wrap msg inner = target) || errorsIs inner target
  | err, target => decide (err = target)

/-- Go `errors.Is` on a possibly nil error; nil is no error at all. -/
def errorsIsOpt : Option Error → Error → Bool
  | none, _ => false
  | some err, target => errorsIs err target

/-- How a Go call ends in a sequential run. -/
inductive Outcome (α : Type) where
  | returned (val : α)
  | panicked (msg : String)
  | blocked

/-- Go `close(ch)` on a channel that is only ever closed: the channel is the
flag "closed"; closing it twice panics (`none`). -/
def closeChan (closed : Bool) : Option Bool :=
  if closed then none else some true

/-- Go `uint64(x)` of an integer. -/
def toUint64 (x : Int) : Nat := (x % 2 ^ 64).toNat

/-- Go `int64(x)` (and `int(x)` on a 64-bit platform) of an unsigned word. -/
def toInt64 (x : Nat) : Int :=
  if x % 2 ^ 64 < 2 ^ 63 then (x % 2 ^ 64 : Nat) else ((x % 2 ^ 64 : Nat) : Int) - 2 ^ 64

/-- Go `time.Time` as far as the round uses it: the zero value, or an instant
given in Unix nanoseconds (`time.Now()`, `time.Unix(0, ns)`), which is never
the zero value. -/
inductive Time where
  | zero
  | unixNano (ns : Int)
  deriving DecidableEq, Repr

/-- Go `tm.IsZero()`. -/
def Time.IsZero : Time → Bool
  | .zero => true
  | .unixNano _ => false

/-- Source `definedUnixNano`. -/
def definedUnixNano (tm : Time) : Nat :=
  match tm with
  | .zero => 0
  | .unixNano ns => toUint64 ns

/-! ## The challenge store -/

/-- Go `bytes.Compare`: lexicographic order on unsigned bytes, a proper prefix
being smaller. -/
def bytesCompare : Bytes → Bytes → Ordering
  | [], [] => .eq
  | [], _ :: _ => .lt
  | _ :: _, [] => .gt
  | a :: as, b :: bs =>
      if a < b then .lt else if b < a then .gt else bytesCompare as bs

/-- Modelled from the spec: the `LevelDB` wrapper of the service package
(`NewLevelDbStore`, `Put`, `Iterator`) is not among the sources. The spec gives
the store as a key-value store with "ordered iteration by key, synchronous
writes", holding "unique byte-strings (keys in a key-value store); values are
empty". The store is the list of its keys in ascending `bytesCompare` order. -/
structure LevelDB where
  keys : List Bytes
  deriving DecidableEq, Repr

/-- Modelled from the spec: writing `key` into the key-ordered key list; a key
that is already there is overwritten in place (the values are empty). -/
def LevelDB.insertKey (key : Bytes) : List Bytes → List Bytes
  | [] => [key]
  | k :: ks =>
      match bytesCompare key k with
      | .lt => key :: k :: ks
      | .eq => k :: ks
      | .gt => k :: LevelDB.insertKey key ks

/-- Modelled from the spec: `Put(key, nil)`. `ioErr` is what the write to disk
answers; a failed write leaves the store as it was. -/
def LevelDB.Put (db : LevelDB) (key : Bytes) (ioErr : Option Error) :
    LevelDB × Option Error :=
  match ioErr with
  | some err => (db, some err)
  | none => ({ keys := LevelDB.insertKey key db.keys }, none)

/-- Modelled from the spec: `Iterator()` followed by `Next`/`Key` until
exhausted yields the keys in key order. -/
def LevelDB.Iterator (db : LevelDB) : List Bytes := db.keys

/-- The store invariant: keys strictly ascending, hence unique. -/
def LevelDB.wf (db : LevelDB) : Prop :=
  db.keys.Pairwise (fun a b => bytesCompare a b = .lt)

/-! ## The Merkle primitive and the prover (external collaborators) -/

/-- The Merkle primitive `github.com/spacemeshos/merkle-tree` as the round
uses it: `merkle.NewTree`, `AddLeaf`, `Root`. -/
structure MerklePrimitive (T : Type) where
  NewTree : Except Error T
  AddLeaf : T → Bytes → Except Error T
  Root : T → Option Bytes

/-- Source `shared.MerkleProof`. -/
structure MerkleProof where
  Root : Bytes
  ProvenLeaves : List Bytes
  ProofNodes : List Bytes
  deriving DecidableEq, Repr

/-- What the prover does during one run, seen from the round: it calls the
`persist` callback some number of times, each time reading the callback's
error, and finally returns `(NIP, err)`. At a checkpoint the prover hands over
`nextLeafID` and the tree's parked nodes; `readerErr` is the answer of
`treeCache.GetReader()` and `ioErr` that of the write to disk. -/
inductive ProverRun where
  | done (nip : Option MerkleProof) (err : Option Error)
  | checkpoint (nextLeafID : Nat) (parkedNodes : List Bytes)
      (readerErr ioErr : Option Error) (next : Option Error → ProverRun)

/-- Arguments of `prover.GenerateProof`. The two hash functions are given by
the statement they are generated from (`hash.GenLabelHashFunc`,
`hash.GenMerkleHashFunc`). -/
structure GenerateProofArgs where
  labelHashStatement : Option Bytes
  merkleHashStatement : Option Bytes
  numLeaves : Nat
  securityParam : Nat
  minMemoryLayer : Nat
  deriving DecidableEq, Repr

/-- Arguments of `prover.GenerateProofRecovery`. -/
structure GenerateProofRecoveryArgs where
  labelHashStatement : Option Bytes
  merkleHashStatement : Option Bytes
  numLeaves : Nat
  securityParam : Nat
  nextLeafID : Nat
  parkedNodes : List Bytes
  deriving DecidableEq, Repr

/-- The `prover` and `shared` packages as the round uses them; they are not
among the sources and are taken as parameters. -/
structure Prover where
  T : Nat
  LowestMerkleMinMemoryLayer : Int
  GenerateProof : GenerateProofArgs → ProverRun
  GenerateProofRecovery : GenerateProofRecoveryArgs → ProverRun

/-! ## The round -/

/-- The fields of the service `Config` that the round reads (both `uint`). -/
structure Config where
  N : Nat
  MemoryLayers : Nat
  deriving DecidableEq, Repr

/-- Source `executionState`. -/
structure executionState where
  NumLeaves : Nat
  SecurityParam : Nat
  Members : Option (List Bytes)
  Statement : Option Bytes
  ParkedNodes : List Bytes
  NextLeafID : Nat
  NIP : Option MerkleProof
  deriving DecidableEq, Repr

/-- Source `roundState`, the record in `state.bin`. -/
structure roundState where
  Opened : Nat
  ExecutionStarted : Nat
  Execution : executionState
  deriving DecidableEq, Repr

/-- Source `roundState.isOpen`. -/
def roundState.isOpen (r : roundState) : Bool :=
  r.Opened != 0 && r.ExecutionStarted == 0

/-- Source `PoetProof` as built by `round.proof`. -/
structure PoetProof where
  N : Nat
  Statement : Option Bytes
  Proof : Option MerkleProof
  deriving DecidableEq, Repr

/-- Source `round`. The four channels are only ever closed, so each is the
flag "closed"; `submitMtx` is the flag "held"; `stateFile` is the content of
`state.bin` in the round's data directory. -/
structure round where
  cfg : Config
  ID : String
  challengesDb : LevelDB
  execution : executionState
  opened : Time
  executionStarted : Time
  openedChan : Bool
  executionStartedChan : Bool
  executionEndedChan : Bool
  broadcastedChan : Bool
  stateCache : Option roundState
  submitMtx : Bool
  stateFile : Option roundState
  deriving DecidableEq, Repr

/-- Source `newRound`; `challengesDb` is what `NewLevelDbStore` finds or
creates at the round's path, `stateFile` what is on disk. The detached
teardown task is not part of the embedding. -/
def newRound (P : Prover) (cfg : Config) (id : String) (challengesDb : LevelDB)
    (stateFile : Option roundState) : round :=
  { cfg := cfg
    ID := id
    challengesDb := challengesDb
    execution :=
      { NumLeaves := (1 <<< cfg.N) % 2 ^ 64
        SecurityParam := P.T
        Members := none
        Statement := none
        ParkedNodes := []
        NextLeafID := 0
        NIP := none }
    opened := .zero
    executionStarted := .zero
    openedChan := false
    executionStartedChan := false
    executionEndedChan := false
    broadcastedChan := false
    stateCache := none
    submitMtx := false
    stateFile := stateFile }

/-- Source `round.saveState` with `persist`: `ioErr` is the answer of encoding
and writing the file; on success the file holds the current record. -/
def round.saveState (r : round) (ioErr : Option Error) : round × Option Error :=
  let v : roundState :=
    { Opened := definedUnixNano r.opened
      ExecutionStarted := definedUnixNano r.executionStarted
      Execution := r.execution }
  match ioErr with
  | some err => (r, some err)
  | none => ({ r with stateFile := some v }, none)

/-- Source `round.open` (`open` is a keyword of Lean). -/
def round.openRound (r : round) (now : Int) (ioErr : Option Error) :
    Outcome (round × Option Error) :=
  let step : round × Option Error :=
    match r.stateCache with
    | some cache => ({ r with opened := .unixNano (toInt64 cache.Opened) }, none)
    | none => round.saveState { r with opened := .unixNano now } ioErr
  match step with
  | (r, some err) => .returned (r, some err)
  | (r, none) =>
      match closeChan r.openedChan with
      | none => .panicked "close of closed channel"
      | some c => .returned ({ r with openedChan := c }, none)

/-- Source `round.isOpen`. -/
def round.isOpen (r : round) : Bool :=
  !r.opened.IsZero && r.executionStarted.IsZero

/-- Source `round.submit`. -/
def round.submit (r : round) (challenge : Bytes) (ioErr : Option Error) :
    Outcome (round × Option Error) :=
  if !r.isOpen then
    .returned (r, some (.new "round is not open"))
  else if r.submitMtx then
    .blocked
  else
    let r := { r with submitMtx := true }
    let (db, err) := r.challengesDb.Put challenge ioErr
    let r := { r with challengesDb := db }
    let r := { r with submitMtx := false }
    .returned (r, err)

/-- Source `round.numChallenges`. -/
def round.numChallenges (r : round) : Nat :=
  r.challengesDb.Iterator.length

/-- Source `round.isEmpty`. -/
def round.isEmpty (r : round) : Bool :=
  r.challengesDb.Iterator.isEmpty

/-- The loop of `round.calcMembersAndStatement`: one iteration per key still
to come from the iterator. -/
def calcMembersLoop {T : Type} (M : MerklePrimitive T) :
    List Bytes → List Bytes → T → Except Error (List Bytes × T)
  | [], members, mtree => .ok (members, mtree)
  | key :: rest, members, mtree =>
      let keyCopy := key
      let members := members ++ [keyCopy]
      match M.AddLeaf mtree keyCopy with
      | .error err => .error err
      | .ok mtree => calcMembersLoop M rest members mtree

/-- Source `round.calcMembersAndStatement`. -/
def round.calcMembersAndStatement {T : Type} (M : MerklePrimitive T) (r : round) :
    Option (List Bytes) × Option Bytes × Option Error :=
  match M.NewTree with
  | .error err =>
      (none, none, some (.new ("failed to initialize merkle tree: " ++ err.text)))
  | .ok mtree =>
      match calcMembersLoop M r.challengesDb.Iterator [] mtree with
      | .error err => (none, none, some err)
      | .ok (members, mtree) => (some members, M.Root mtree, none)

/-- Source `round.persistExecution`. -/
def round.persistExecution (r : round) (nextLeafID : Nat) (parkedNodes : List Bytes)
    (readerErr ioErr : Option Error) : round × Option Error :=
  match readerErr with
  | some err => (r, some err)
  | none =>
      let r := { r with execution := { r.execution with NextLeafID := nextLeafID } }
      let r := { r with execution := { r.execution with ParkedNodes := parkedNodes } }
      match r.saveState ioErr with
      | (r, some err) => (r, some err)
      | (r, none) => (r, none)

/-- A prover run against the round: every checkpoint calls
`round.persistExecution` and hands its error back to the prover. -/
def round.runProver (r : round) : ProverRun → round × Option MerkleProof × Option Error
  | .done nip err => (r, nip, err)
  | .checkpoint nextLeafID parkedNodes readerErr ioErr next =>
      let (r, err) := r.persistExecution nextLeafID parkedNodes readerErr ioErr
      round.runProver r (next err)

/-- The computation of `minMemoryLayer` in `round.execute`, up to the
conversion `uint(minMemoryLayer)` at the call of the prover. -/
def minMemoryLayer (P : Prover) (cfg : Config) : Nat :=
  let minMemoryLayer : Int := toInt64 ((cfg.N % 2 ^ 64 + 2 ^ 64 - cfg.MemoryLayers % 2 ^ 64) % 2 ^ 64)
  let minMemoryLayer :=
    if minMemoryLayer < P.LowestMerkleMinMemoryLayer then P.LowestMerkleMinMemoryLayer
    else minMemoryLayer
  toUint64 minMemoryLayer

/-- What the environment decides during `round.execute`: the clock and the
three writes of the state file. -/
structure ExecEnv where
  now : Int
  save1 : Option Error
  save2 : Option Error
  save3 : Option Error
  deriving DecidableEq, Repr

/-- Source `round.execute`. -/
def round.execute {T : Type} (M : MerklePrimitive T) (P : Prover) (r : round)
    (env : ExecEnv) : Outcome (round × Option Error) :=
  let r := { r with executionStarted := .unixNano env.now }
  match r.saveState env.save1 with
  | (r, some err) => .returned (r, some err)
  | (r, none) =>
  match closeChan r.executionStartedChan with
  | none => .panicked "close of closed channel"
  | some c =>
  let r := { r with executionStartedChan := c }
  if r.submitMtx then .blocked else
  let r := { r with submitMtx := true }
  match r.calcMembersAndStatement M with
  | (members, statement, some err) =>
      .returned
        ({ r with execution := { r.execution with Members := members, Statement := statement } },
          some err)
  | (members, statement, none) =>
  let r := { r with execution := { r.execution with Members := members, Statement := statement } }
  let r := { r with submitMtx := false }
  match r.saveState env.save2 with
  | (r, some err) => .returned (r, some err)
  | (r, none) =>
  let run := P.GenerateProof
    { labelHashStatement := r.execution.Statement
      merkleHashStatement := r.execution.Statement
      numLeaves := r.execution.NumLeaves
      securityParam := r.execution.SecurityParam
      minMemoryLayer := minMemoryLayer P r.cfg }
  match r.runProver run with
  | (r, nip, some err) =>
      .returned ({ r with execution := { r.execution with NIP := nip } }, some err)
  | (r, nip, none) =>
  let r := { r with execution := { r.execution with NIP := nip } }
  match r.saveState env.save3 with
  | (r, some err) => .returned (r, some err)
  | (r, none) =>
  match closeChan r.executionEndedChan with
  | none => .panicked "close of closed channel"
  | some c => .returned ({ r with executionEndedChan := c }, none)

/-- What the environment decides during `round.recoverExecution`: the two
writes of the state file. -/
structure RecoverEnv where
  save1 : Option Error
  save2 : Option Error
  deriving DecidableEq, Repr

/-- Source `round.recoverExecution`. -/
def round.recoverExecution {T : Type} (M : MerklePrimitive T) (P : Prover) (r : round)
    (state : executionState) (env : RecoverEnv) : Outcome (round × Option Error) :=
  match r.stateCache with
  | none => .panicked "nil pointer dereference"
  | some cache =>
  let r := { r with executionStarted := .unixNano (toInt64 cache.ExecutionStarted) }
  match closeChan r.executionStartedChan with
  | none => .panicked "close of closed channel"
  | some c =>
  let r := { r with executionStartedChan := c }
  let step : round × Option Error :=
    if state.Members != none && state.Statement != none then
      ({ r with execution :=
          { r.execution with Members := state.Members, Statement := state.Statement } }, none)
    else
      match r.calcMembersAndStatement M with
      | (members, statement, some err) =>
          ({ r with execution :=
              { r.execution with Members := members, Statement := statement } },
            some (.wrap "calc members " err))
      | (members, statement, none) =>
          round.saveState
            { r with execution :=
                { r.execution with Members := members, Statement := statement } }
            env.save1
  match step with
  | (r, some err) => .returned (r, some err)
  | (r, none) =>
  let run := P.GenerateProofRecovery
    { labelHashStatement := state.Statement
      merkleHashStatement := state.Statement
      numLeaves := state.NumLeaves
      securityParam := state.SecurityParam
      nextLeafID := state.NextLeafID
      parkedNodes := state.ParkedNodes }
  match r.runProver run with
  | (r, nip, some err) =>
      .returned
        ({ r with execution := { r.execution with NIP := nip } },
          some (.wrap "can't generate proof " err))
  | (r, nip, none) =>
  let r := { r with execution := { r.execution with NIP := nip } }
  match r.saveState env.save2 with
  | (r, some err) => .returned (r, some (.wrap "can't save state " err))
  | (r, none) =>
  match closeChan r.executionEndedChan with
  | none => .panicked "close of closed channel"
  | some c => .returned ({ r with executionEndedChan := c }, none)

/-- Source `round.proof`. A receive from a channel succeeds once the channel is
closed; `proof(true)` waits for `executionEndedChan`. -/
def round.proof (r : round) (wait : Bool) : Outcome (Option PoetProof × Option Error) :=
  let result : Outcome (Option PoetProof × Option Error) :=
    .returned
      (some { N := r.cfg.N, Statement := r.execution.Statement, Proof := r.execution.NIP },
        none)
  if wait then
    if r.executionEndedChan then result else .blocked
  else
    if r.executionEndedChan then result
    else if r.executionStartedChan then
      .returned (none, some (.new "round is executing"))
    else if r.openedChan then
      .returned (none, some (.new "round is open"))
    else
      .returned (none, some (.new "round wasn't open"))

/-- Source `round.broadcasted`. -/
def round.broadcasted (r : round) : Outcome round :=
  match closeChan r.broadcastedChan with
  | none => .panicked "close of closed channel"
  | some c => .returned { r with broadcastedChan := c }

/-! ## The challenge-verifier stack -/

/-- Source `types.ChallengeVerifier`: a downstream verifier answers
`(hash, err)` to `Verify(ctx, challenge, signature)`. What it answers may
depend on a state `W` of the world outside, which the call may change. -/
abbrev ChallengeVerifier (W : Type) := W → Bytes → Bytes → (Option Bytes × Option Error) × W

/-- Source `roundRobinChallengeVerifier`. -/
structure roundRobinChallengeVerifier (W : Type) where
  services : List (ChallengeVerifier W)
  lastUsedSvc : Nat

/-- Source `NewRoundRobinChallengeVerifier`. -/
def NewRoundRobinChallengeVerifier {W : Type} (services : List (ChallengeVerifier W)) :
    roundRobinChallengeVerifier W :=
  { services := services, lastUsedSvc := 0 }

/-- A finished `Verify` of the round-robin verifier: the Go results, the
updated receiver field, the world, and the indices of the downstream services
that were called, in call order. -/
structure RoundRobinResult (W : Type) where
  hash : Option Bytes
  err : Option Error
  lastUsedSvc : Nat
  world : W
  calls : List Nat

/-- The loop of `roundRobinChallengeVerifier.Verify`; the first argument is
`len(a.services) - retries`, the iterations still to run. -/
def roundRobinChallengeVerifier.verifyLoop {W : Type} (services : List (ChallengeVerifier W))
    (challenge signature : Bytes) :
    Nat → Nat → W → List Nat → Outcome (RoundRobinResult W)
  | 0, lastUsedSvc, w, calls =>
      .returned
        { hash := none, err := some .ErrCouldNotVerify, lastUsedSvc := lastUsedSvc,
          world := w, calls := calls }
  | n + 1, lastUsedSvc, w, calls =>
      match services[lastUsedSvc]? with
      | none => .panicked "index out of range"
      | some svc =>
          match svc w challenge signature with
          | ((hash, none), w) =>
              .returned
                { hash := hash, err := none, lastUsedSvc := lastUsedSvc, world := w,
                  calls := calls ++ [lastUsedSvc] }
          | ((_, some err), w) =>
              if errorsIs err .ErrChallengeInvalid then
                .returned
                  { hash := none, err := some err, lastUsedSvc := lastUsedSvc, world := w,
                    calls := calls ++ [lastUsedSvc] }
              else
                roundRobinChallengeVerifier.verifyLoop services challenge signature n
                  ((lastUsedSvc + 1) % services.length) w (calls ++ [lastUsedSvc])

/-- Source `roundRobinChallengeVerifier.Verify`. -/
def roundRobinChallengeVerifier.Verify {W : Type} (a : roundRobinChallengeVerifier W) (w : W)
    (challenge signature : Bytes) : Outcome (RoundRobinResult W) :=
  roundRobinChallengeVerifier.verifyLoop a.services challenge signature a.services.length
    a.lastUsedSvc w []

/-- Source `challengeVerifierResult`. -/
structure challengeVerifierResult where
  hash : Option Bytes
  err : Option Error
  deriving DecidableEq, Repr

/-- The cache `lru.Cache` of `github.com/hashicorp/golang-lru` (an external
library; the spec: "a bounded LRU"): at most `size` entries, the most recently
used first. -/
structure Cache (K V : Type) where
  size : Nat
  items : List (K × V)

/-- Library `lru.New(size)`: a non-positive size is an error. -/
def Cache.New {K V : Type} (size : Int) : Except Error (Cache K V) :=
  if size ≤ 0 then .error (.new "must provide a positive size")
  else .ok { size := size.toNat, items := [] }

/-- Library `Cache.Get`: a hit moves the entry to the front. -/
def Cache.Get {K V : Type} [DecidableEq K] (c : Cache K V) (key : K) :
    Cache K V × Option V :=
  match c.items.find? (fun e => decide (e.1 = key)) with
  | some e => ({ c with items := e :: c.items.filter (fun e => !decide (e.1 = key)) }, some e.2)
  | none => (c, none)

/-- Library `Cache.Add`: an entry with the key is moved to the front and its
value replaced; otherwise the entry is pushed to the front and, when the cache
now holds more than `size` entries, the oldest one is removed. -/
def Cache.Add {K V : Type} [DecidableEq K] (c : Cache K V) (key : K) (value : V) :
    Cache K V :=
  if c.items.any (fun e => decide (e.1 = key)) then
    { c with items := (key, value) :: c.items.filter (fun e => !decide (e.1 = key)) }
  else
    let items := (key, value) :: c.items
    if items.length > c.size then { c with items := items.dropLast }
    else { c with items := items }

/-- Library `Cache.Contains`, without touching the recency order. -/
def Cache.Contains {K V : Type} [DecidableEq K] (c : Cache K V) (key : K) : Bool :=
  c.items.any (fun e => decide (e.1 = key))

/-- Source `cachingChallengeVerifier`. -/
structure cachingChallengeVerifier (W : Type) where
  cache : Cache Bytes challengeVerifierResult
  verifier : ChallengeVerifier W

/-- Source `NewCachingChallengeVerifier`. -/
def NewCachingChallengeVerifier {W : Type} (size : Int) (verifier : ChallengeVerifier W) :
    Except Error (cachingChallengeVerifier W) :=
  match Cache.New size with
  | .error err => .error err
  | .ok cache => .ok { cache := cache, verifier := verifier }

/-- A finished `Verify` of the caching verifier: the Go results, the updated
receiver, the world, and the number of calls made to the downstream
verifier. -/
structure CachingResult (W : Type) where
  hash : Option Bytes
  err : Option Error
  self : cachingChallengeVerifier W
  world : W
  downstreamCalls : Nat

/-- Source `cachingChallengeVerifier.Verify`. `sha256` is the hash function of
`crypto/sha256`; the hasher is fed `challenge`, then `signature`. -/
def cachingChallengeVerifier.Verify {W : Type} (sha256 : Bytes → Bytes)
    (a : cachingChallengeVerifier W) (w : W) (challenge signature : Bytes) :
    CachingResult W :=
  let challengeHash := sha256 (challenge ++ signature)
  match a.cache.Get challengeHash with
  | (cache, some result) =>
      { hash := result.hash, err := result.err, self := { a with cache := cache }, world := w,
        downstreamCalls := 0 }
  | (cache, none) =>
      match a.verifier w challenge signature with
      | ((hash, err), w) =>
          let cache :=
            if err == none || errorsIsOpt err .ErrChallengeInvalid then
              cache.Add challengeHash { hash := hash, err := err }
            else cache
          { hash := hash, err := err, self := { a with cache := cache }, world := w,
            downstreamCalls := 1 }

/-! ## Runs and sample collaborators -/

/-- A sequential run of `round.submit` calls, each given by the challenge and
by what the write to disk answers; it yields the round afterwards and the
error each call returned. -/
def round.submitAll (r : round) :
    List (Bytes × Option Error) → Outcome (round × List (Option Error))
  | [] => .returned (r, [])
  | (challenge, ioErr) :: rest =>
      match r.submit challenge ioErr with
      | .returned (r, err) =>
          match round.submitAll r rest with
          | .returned (r, errs) => .returned (r, err :: errs)
          | .panicked msg => .panicked msg
          | .blocked => .blocked
      | .panicked msg => .panicked msg
      | .blocked => .blocked

/-- The challenges of those calls of a run that returned a nil error. -/
def acceptedHashes (calls : List (Bytes × Option Error)) (errs : List (Option Error)) :
    List Bytes :=
  ((calls.zip errs).filter (fun p => p.2.isNone)).map (fun p => p.1.1)

/-- The spec's `MerkleRoot(members)`: the root of the tree obtained by adding
the elements of `members` as leaves, in list order, to an empty tree; an error
when the primitive fails on the way. -/
def MerkleRoot {T : Type} (M : MerklePrimitive T) (members : List Bytes) :
    Except Error (Option Bytes) :=
  match M.NewTree with
  | .error err => .error err
  | .ok empty =>
      match members.foldlM M.AddLeaf empty with
      | .error err => .error err
      | .ok tree => .ok (M.Root tree)

/-- The errors returned by a run of submits and the members list recorded by
the `round.execute` that follows it; `none` when a call does not return or
`execute` returns an error. -/
def round.submitThenExecute {T : Type} (M : MerklePrimitive T) (P : Prover) (r : round)
    (calls : List (Bytes × Option Error)) (env : ExecEnv) :
    Option (List (Option Error) × Option (List Bytes)) :=
  match r.submitAll calls with
  | .returned (r1, errs) =>
      match r1.execute M P env with
      | .returned (r2, none) => some (errs, r2.execution.Members)
      | _ => none
  | _ => none

/-- A Merkle primitive for evaluation: the tree is the list of its leaves and
the root is their concatenation; it never fails. -/
def listMerkle : MerklePrimitive (List Bytes) :=
  { NewTree := .ok []
    AddLeaf := fun t leaf => .ok (t ++ [leaf])
    Root := fun t => some t.flatten }

/-- A Merkle primitive for evaluation that accepts at most two leaves. -/
def smallMerkle : MerklePrimitive (List Bytes) :=
  { NewTree := .ok []
    AddLeaf := fun t leaf =>
      if t.length < 2 then .ok (t ++ [leaf]) else .error (.new "tree is full")
    Root := fun t => some t.flatten }

/-- A prover for evaluation: no checkpoint, and a proof whose root is the
statement it was given. -/
def echoProver : Prover :=
  { T := 150
    LowestMerkleMinMemoryLayer := 1
    GenerateProof := fun args =>
      .done (some { Root := args.labelHashStatement.getD [], ProvenLeaves := [],
                    ProofNodes := [] }) none
    GenerateProofRecovery := fun args =>
      .done (some { Root := args.labelHashStatement.getD [], ProvenLeaves := [],
                    ProofNodes := [] }) none }

/-- An environment in which every write succeeds. -/
def quietEnv : ExecEnv := { now := 1700000000, save1 := none, save2 := none, save3 := none }

/-- A round newly created over an empty store and then opened. -/
def freshOpenRound : round :=
  match (newRound echoProver { N := 4, MemoryLayers := 2 } "0" { keys := [] } none).openRound
      1600000000 none with
  | .returned (r, _) => r
  | _ => newRound echoProver { N := 4, MemoryLayers := 2 } "0" { keys := [] } none

/-- A round that is open over a store holding the keys `[1]` and `[2]`. -/
def sampleOpenRound : round :=
  { freshOpenRound with challengesDb := { keys := [[1], [2]] } }

/-- The downstream verifier answers `(challenge, signature)` with an error
that is not `ErrChallengeInvalid`, whatever the state of the world. -/
def failsTransiently {W : Type} (svc : ChallengeVerifier W) (challenge signature : Bytes) :
    Prop :=
  ∀ w, ∃ hash err w', svc w challenge signature = ((hash, some err), w') ∧
    errorsIs err .ErrChallengeInvalid = false

/-- The downstream verifier answers `(challenge, signature)` with an error
that is `ErrChallengeInvalid`, whatever the state of the world. -/
def rejectsAsInvalid {W : Type} (svc : ChallengeVerifier W) (challenge signature : Bytes) :
    Prop :=
  ∀ w, ∃ hash err w', svc w challenge signature = ((hash, some err), w') ∧
    errorsIs err .ErrChallengeInvalid = true

/-- The downstream verifier answers `(challenge, signature)` with `(hash, nil)`,
whatever the state of the world. -/
def succeedsWith {W : Type} (svc : ChallengeVerifier W) (challenge signature : Bytes)
    (hash : Option Bytes) : Prop :=
  ∀ w, ∃ w', svc w challenge signature = ((hash, none), w')

/-- The ring order of `n` positions from `start`: `start`, `start + 1`, ...
modulo the number `len` of services. -/
def ringOrder (len start n : Nat) : List Nat :=
  (List.range n).map (fun i => (start + i) % len)

/-- A downstream verifier for evaluation that counts its calls in the world
and answers `ErrCouldNotVerify`. -/
def unavailableVerifier : ChallengeVerifier Nat :=
  fun w _ _ => ((none, some .ErrCouldNotVerify), w + 1)

/-- A downstream verifier for evaluation that counts its calls in the world
and answers `ErrChallengeInvalid`, wrapped once. -/
def rejectingVerifier : ChallengeVerifier Nat :=
  fun w _ _ => ((none, some (.wrap "gateway: " .ErrChallengeInvalid)), w + 1)

/-- A downstream verifier for evaluation that counts its calls in the world
and answers with the challenge as hash. -/
def acceptingVerifier : ChallengeVerifier Nat :=
  fun w challenge _ => ((some challenge, none), w + 1)

/-- A stand-in for `sha256` for evaluation: the identity. -/
def plainHash : Bytes → Bytes := fun b => b

/-- A caching verifier of capacity 1 with an empty cache over a downstream
verifier that rejects every challenge as invalid. -/
def cachingOverRejecting : cachingChallengeVerifier Nat :=
  { cache := { size := 1, items := [] }, verifier := rejectingVerifier }

/-- A caching verifier of capacity 1 with an empty cache over a downstream
verifier that is unavailable. -/
def cachingOverUnavailable : cachingChallengeVerifier Nat :=
  { cache := { size := 1, items := [] }, verifier := unavailableVerifier }

/-- A run of four submits: two distinct hashes in descending order, the first
one again, and one whose write to disk fails. -/
def sampleCalls : List (Bytes × Option Error) :=
  [([2], none), ([1], none), ([2], none), ([3], some (.new "write failed"))]

/-! ## The round-robin ATX provider -/

/-- Source `shared.ATXID`, a `[32]byte`. -/
abbrev ATXID := Bytes

/-- Source `types.AtxProvider`: a downstream provider answers `(atx, err)` to
`Get(ctx, id)`. `ATX` stands for `types.ATX`; the answer `*types.ATX` may be
nil. What a provider answers may depend on a state `W` of the world outside,
which the call may change. -/
abbrev AtxProvider (ATX W : Type) := W → ATXID → (Option ATX × Option Error) × W

/-- Modelled from the spec: the declaration of `AtxNotFoundError` is not among
the sources. The spec has "not-found is a distinguished error"; the source
builds it as `&AtxNotFoundError{id}`, a record of the requested id. -/
structure AtxNotFoundError where
  id : ATXID
  deriving DecidableEq, Repr

/-- Source `roundRobinAtxProvider` (without its logger). -/
structure roundRobinAtxProvider (ATX W : Type) where
  services : List (AtxProvider ATX W)
  lastUsedSvc : Nat

/-- Source `NewRoundRobinAtxProvider`. -/
def NewRoundRobinAtxProvider {ATX W : Type} (services : List (AtxProvider ATX W)) :
    roundRobinAtxProvider ATX W :=
  { services := services, lastUsedSvc := 0 }

/-- One downstream call made by `roundRobinAtxProvider.Get`: the index of the
provider that was called and what it answered. -/
structure AtxCall (ATX : Type) where
  index : Nat
  atx : Option ATX
  err : Option Error

/-- A finished `Get` of the round-robin ATX provider: the Go results (the
error is nil or an `AtxNotFoundError`), the updated receiver field, the world,
and the downstream calls in call order. -/
structure RoundRobinAtxResult (ATX W : Type) where
  atx : Option ATX
  err : Option AtxNotFoundError
  lastUsedSvc : Nat
  world : W
  calls : List (AtxCall ATX)

/-- The loop of `roundRobinAtxProvider.Get`; the first argument is
`len(a.services) - retries`, the iterations still to run. -/
def roundRobinAtxProvider.getLoop {ATX W : Type} (services : List (AtxProvider ATX W))
    (id : ATXID) :
    Nat → Nat → W → List (AtxCall ATX) → Outcome (RoundRobinAtxResult ATX W)
  | 0, lastUsedSvc, w, calls =>
      .returned
        { atx := none, err := some { id := id }, lastUsedSvc := lastUsedSvc, world := w,
          calls := calls }
  | n + 1, lastUsedSvc, w, calls =>
      match services[lastUsedSvc]? with
      | none => .panicked "index out of range"
      | some svc =>
          match svc w id with
          | ((atx, none), w) =>
              .returned
                { atx := atx, err := none, lastUsedSvc := lastUsedSvc, world := w,
                  calls := calls ++ [{ index := lastUsedSvc, atx := atx, err := none }] }
          | ((atx, some err), w) =>
              roundRobinAtxProvider.getLoop services id n
                ((lastUsedSvc + 1) % services.length) w
                (calls ++ [{ index := lastUsedSvc, atx := atx, err := some err }])

/-- Source `roundRobinAtxProvider.Get`. -/
def roundRobinAtxProvider.Get {ATX W : Type} (a : roundRobinAtxProvider ATX W) (w : W)
    (id : ATXID) : Outcome (RoundRobinAtxResult ATX W) :=
  roundRobinAtxProvider.getLoop a.services id a.services.length a.lastUsedSvc w []

/-- A downstream ATX provider for evaluation that counts its calls in the world
and answers with an error. -/
def missingAtxProvider : AtxProvider Nat Nat :=
  fun w _ => ((none, some (.new "not found")), w + 1)

/-- A downstream ATX provider for evaluation that counts its calls in the world
and answers with the length of the id as the ATX. -/
def lengthAtxProvider : AtxProvider Nat Nat :=
  fun w id => ((some id.length, none), w + 1)

/-- The records `calls` are what the providers answered, one call after the
other: from the world `w`, the provider at the index of the first record,
asked for `id`, gave the ATX and the error of that record and left the world
from which the next record was answered, and so on up to the world `w1`. -/
def answersInOrder {ATX W : Type} (services : List (AtxProvider ATX W)) (id : ATXID) :
    W → List (AtxCall ATX) → W → Prop
  | w, [], w1 => w = w1
  | w, c :: cs, w1 =>
      ∃ svc w0, services[c.index]? = some svc ∧ svc w id = ((c.atx, c.err), w0) ∧
        answersInOrder services id w0 cs w1

/-- The downstream provider answers `id` with a non-nil error, whatever the
state of the world. -/
def atxFails {ATX W : Type} (svc : AtxProvider ATX W) (id : ATXID) : Prop :=
  ∀ w, ∃ atx err w1, svc w id = ((atx, some err), w1)

/-- The downstream provider answers `id` with `(atx, nil)`, whatever the state
of the world. -/
def atxSucceedsWith {ATX W : Type} (svc : AtxProvider ATX W) (id : ATXID)
    (atx : Option ATX) : Prop :=
  ∀ w, ∃ w1, svc w id = ((atx, none), w1)

/-! ## Sample collaborators for recovery and for the prover call -/

/-- A prover for evaluation whose proof records the statements its two hash
functions were generated from: the one of the label hash in `ProvenLeaves`,
the one of the Merkle hash in `ProofNodes`, a nil statement leaving no entry;
the root records `minMemoryLayer` (zero in the recovery variant). -/
def recordingProver : Prover :=
  { T := 150
    LowestMerkleMinMemoryLayer := 1
    GenerateProof := fun args =>
      .done (some { Root := [Fin.ofNat args.minMemoryLayer],
                    ProvenLeaves := args.labelHashStatement.toList,
                    ProofNodes := args.merkleHashStatement.toList }) none
    GenerateProofRecovery := fun args =>
      .done (some { Root := [0],
                    ProvenLeaves := args.labelHashStatement.toList,
                    ProofNodes := args.merkleHashStatement.toList }) none }

/-- An environment of `recoverExecution` in which every write succeeds. -/
def quietRecoverEnv : RecoverEnv := { save1 := none, save2 := none }

/-- The execution state of a state file written by the first `saveState` of
`execute`: execution has started, members and statement are not there yet. -/
def stateWithoutMembers : executionState :=
  { NumLeaves := 16
    SecurityParam := 150
    Members := none
    Statement := none
    ParkedNodes := []
    NextLeafID := 0
    NIP := none }

/-- A round created after a restart over a store holding `[1]` and `[2]`, with
the loaded state file in `stateCache`. -/
def recoveredRound : round :=
  { newRound recordingProver { N := 4, MemoryLayers := 2 } "0" { keys := [[1], [2]] } none with
    stateCache :=
      some { Opened := 1600000000, ExecutionStarted := 1700000000,
             Execution := stateWithoutMembers } }

/-- A round that is open over a store holding three keys. -/
def threeKeyOpenRound : round :=
  { freshOpenRound with challengesDb := { keys := [[1], [2], [3]] } }

/-- A caching verifier of capacity 1 with an empty cache over a downstream
verifier that answers with the challenge as hash. -/
def cachingOverAccepting : cachingChallengeVerifier Nat :=
  { cache := { size := 1, items := [] }, verifier := acceptingVerifier }

/-! ## The key order -/

theorem bytesCompare_eq_iff (a b : Bytes) : bytesCompare a b = .eq ↔ a = b := by
  induction a generalizing b with
  | nil => cases b <;> simp [bytesCompare]
  | cons x xs ih =>
    cases b with
    | nil => simp [bytesCompare]
    | cons y ys =>
      simp only [bytesCompare]
      split
      · rename_i h
        simp only [List.cons.injEq, false_iff, reduceCtorEq]
        intro h2
        exact absurd h2.1 (ne_of_lt h)
      · split
        · rename_i h
          simp only [List.cons.injEq, false_iff, reduceCtorEq]
          intro h2
          exact absurd h2.1.symm (ne_of_lt h)
        · rename_i h1 h2
          have hxy : x = y := le_antisymm (not_lt.mp h2) (not_lt.mp h1)
          simp [ih ys, hxy]

theorem bytesCompare_gt_iff (a b : Bytes) : bytesCompare a b = .gt ↔ bytesCompare b a = .lt := by
  induction a generalizing b with
  | nil => cases b <;> simp [bytesCompare]
  | cons x xs ih =>
    cases b with
    | nil => simp [bytesCompare]
    | cons y ys =>
      simp only [bytesCompare]
      by_cases h1 : x < y
      · have h2 : ¬ y < x := not_lt.mpr (le_of_lt h1)
        simp [h1, h2]
      · by_cases h2 : y < x
        · simp [h1, h2]
        · simp [h1, h2, ih ys]

theorem bytesCompare_lt_trans (a b c : Bytes) (hab : bytesCompare a b = .lt)
    (hbc : bytesCompare b c = .lt) : bytesCompare a c = .lt := by
  induction a generalizing b c with
  | nil =>
    cases c with
    | nil => cases b <;> simp [bytesCompare] at hab hbc
    | cons z zs => simp [bytesCompare]
  | cons x xs ih =>
    cases b with
    | nil => simp [bytesCompare] at hab
    | cons y ys =>
      cases c with
      | nil => simp [bytesCompare] at hbc
      | cons z zs =>
        simp only [bytesCompare] at hab hbc ⊢
        by_cases hxy : x < y
        · by_cases hyz : y < z
          · simp [lt_trans hxy hyz]
          · by_cases hzy : z < y
            · simp [hyz, hzy] at hbc
            · have : y = z := le_antisymm (not_lt.mp hzy) (not_lt.mp hyz)
              subst this
              simp [hxy]
        · by_cases hyx : y < x
          · simp [hxy, hyx] at hab
          · have : x = y := le_antisymm (not_lt.mp hyx) (not_lt.mp hxy)
            subst this
            simp only [hxy, if_false] at hab
            by_cases hyz : x < z
            · simp [hyz]
            · by_cases hzy : z < x
              · simp [hyz, hzy] at hbc
              · simp only [hyz, hzy, if_false] at hbc ⊢
                exact ih ys zs hab hbc

theorem bytesCompare_lt_ne (a b : Bytes) (h : bytesCompare a b = .lt) : a ≠ b := by
  intro hab
  have := (bytesCompare_eq_iff a b).mpr hab
  rw [this] at h
  cases h

/-! ## The store -/

theorem mem_insertKey (key x : Bytes) (ks : List Bytes) :
    x ∈ LevelDB.insertKey key ks ↔ x = key ∨ x ∈ ks := by
  induction ks with
  | nil => simp [LevelDB.insertKey]
  | cons k ks ih =>
    simp only [LevelDB.insertKey]
    split
    · simp
    · rename_i h
      have hk : key = k := (bytesCompare_eq_iff key k).mp h
      subst hk
      simp
    · simp only [List.mem_cons, ih]
      tauto

theorem insertKey_pairwise (key : Bytes) (ks : List Bytes)
    (h : ks.Pairwise (fun a b => bytesCompare a b = .lt)) :
    (LevelDB.insertKey key ks).Pairwise (fun a b => bytesCompare a b = .lt) := by
  induction ks with
  | nil => simp [LevelDB.insertKey]
  | cons k ks ih =>
    have hk := List.pairwise_cons.mp h
    simp only [LevelDB.insertKey]
    split
    · rename_i hlt
      refine List.pairwise_cons.mpr ⟨?_, h⟩
      intro b hb
      rcases List.mem_cons.mp hb with rfl | hb
      · exact hlt
      · exact bytesCompare_lt_trans _ _ _ hlt (hk.1 b hb)
    · exact h
    · rename_i hgt
      refine List.pairwise_cons.mpr ⟨?_, ih hk.2⟩
      intro b hb
      rcases (mem_insertKey key b ks).mp hb with rfl | hb
      · exact (bytesCompare_gt_iff _ _).mp hgt
      · exact hk.1 b hb

theorem insertKey_of_mem (key : Bytes) (ks : List Bytes)
    (h : ks.Pairwise (fun a b => bytesCompare a b = .lt)) (hmem : key ∈ ks) :
    LevelDB.insertKey key ks = ks := by
  induction ks with
  | nil => simp at hmem
  | cons k ks ih =>
    have hk := List.pairwise_cons.mp h
    simp only [LevelDB.insertKey]
    rcases List.mem_cons.mp hmem with rfl | hmem
    · rw [(bytesCompare_eq_iff key key).mpr rfl]
    · have hlt : bytesCompare k key = .lt := hk.1 key hmem
      have hgt : bytesCompare key k = .gt := (bytesCompare_gt_iff _ _).mpr hlt
      rw [hgt]
      simp [ih hk.2 hmem]

theorem pairwise_lt_nodup (ks : List Bytes)
    (h : ks.Pairwise (fun a b => bytesCompare a b = .lt)) : ks.Nodup :=
  h.imp (fun {a b} hab => bytesCompare_lt_ne a b hab)

/-! ## Submitting to an open round -/

theorem submit_open (r : round) (challenge : Bytes) (ioErr : Option Error)
    (hopen : r.isOpen = true) (hmtx : r.submitMtx = false) :
    r.submit challenge ioErr =
      .returned ({ r with challengesDb := (r.challengesDb.Put challenge ioErr).1 }, ioErr) := by
  cases r
  simp only at hmtx
  subst hmtx
  cases ioErr <;> simp [round.submit, hopen, LevelDB.Put]

theorem submitAll_open (r : round) (calls : List (Bytes × Option Error))
    (hopen : r.isOpen = true) (hmtx : r.submitMtx = false) :
    r.submitAll calls =
      .returned
        ({ r with challengesDb :=
            calls.foldl (fun db c => (db.Put c.1 c.2).1) r.challengesDb },
          calls.map Prod.snd) := by
  induction calls generalizing r with
  | nil => cases r; rfl
  | cons c rest ih =>
    obtain ⟨challenge, ioErr⟩ := c
    simp only [round.submitAll, submit_open r challenge ioErr hopen hmtx]
    rw [ih _ (by simpa [round.isOpen] using hopen) (by simpa using hmtx)]
    simp

theorem acceptedHashes_map_snd (calls : List (Bytes × Option Error)) :
    acceptedHashes calls (calls.map Prod.snd) =
      (calls.filter (fun c => c.2.isNone)).map Prod.fst := by
  induction calls with
  | nil => rfl
  | cons c rest ih =>
    simp only [acceptedHashes] at ih
    by_cases hc : c.2.isNone = true
    · simp [acceptedHashes, List.filter_cons, hc, ih]
    · simp [acceptedHashes, List.filter_cons, hc, ih]

theorem foldPut_wf (calls : List (Bytes × Option Error)) (db : LevelDB) (h : db.wf) :
    (calls.foldl (fun db c => (db.Put c.1 c.2).1) db).wf := by
  induction calls generalizing db with
  | nil => exact h
  | cons c rest ih =>
    apply ih
    obtain ⟨challenge, ioErr⟩ := c
    cases ioErr with
    | none => exact insertKey_pairwise challenge db.keys h
    | some err => exact h

theorem mem_foldPut (calls : List (Bytes × Option Error)) (db : LevelDB) (x : Bytes) :
    x ∈ (calls.foldl (fun db c => (db.Put c.1 c.2).1) db).keys ↔
      x ∈ db.keys ∨ x ∈ (calls.filter (fun c => c.2.isNone)).map Prod.fst := by
  induction calls generalizing db with
  | nil => simp
  | cons c rest ih =>
    obtain ⟨challenge, ioErr⟩ := c
    rw [List.foldl_cons, ih]
    cases ioErr with
    | none =>
      simp only [LevelDB.Put, mem_insertKey, List.filter_cons, Option.isNone_none, if_true,
        List.map_cons, List.mem_cons]
      tauto
    | some err =>
      simp [LevelDB.Put, List.filter_cons]

/-! ## What `execute` records -/

theorem calcMembersLoop_eq {T : Type} (M : MerklePrimitive T) (keys members : List Bytes)
    (mtree : T) :
    calcMembersLoop M keys members mtree =
      match keys.foldlM M.AddLeaf mtree with
      | .error err => .error err
      | .ok t => .ok (members ++ keys, t) := by
  induction keys generalizing members mtree with
  | nil => simp [calcMembersLoop, pure, Except.pure]
  | cons key rest ih =>
    simp only [calcMembersLoop, List.foldlM_cons]
    cases hleaf : M.AddLeaf mtree key with
    | error err => simp [bind, Except.bind]
    | ok t => simp [bind, Except.bind, ih]

theorem calcMembersAndStatement_congr {T : Type} (M : MerklePrimitive T) (r r' : round)
    (h : r.challengesDb = r'.challengesDb) :
    r.calcMembersAndStatement M = r'.calcMembersAndStatement M := by
  simp [round.calcMembersAndStatement, h]

theorem saveState_fields (r : round) (ioErr : Option Error) :
    (r.saveState ioErr).1.execution = r.execution ∧
    (r.saveState ioErr).1.challengesDb = r.challengesDb ∧
    (r.saveState ioErr).1.submitMtx = r.submitMtx ∧
    (r.saveState ioErr).1.cfg = r.cfg ∧
    (r.saveState ioErr).1.executionStarted = r.executionStarted ∧
    (r.saveState ioErr).1.opened = r.opened ∧
    (r.saveState ioErr).1.executionEndedChan = r.executionEndedChan ∧
    (r.saveState ioErr).1.executionStartedChan = r.executionStartedChan ∧
    (r.saveState ioErr).1.openedChan = r.openedChan := by
  cases ioErr <;> simp [round.saveState]

theorem runProver_fields (run : ProverRun) (r : round) :
    (r.runProver run).1.execution.Members = r.execution.Members ∧
    (r.runProver run).1.execution.Statement = r.execution.Statement ∧
    (r.runProver run).1.challengesDb = r.challengesDb ∧
    (r.runProver run).1.submitMtx = r.submitMtx ∧
    (r.runProver run).1.cfg = r.cfg ∧
    (r.runProver run).1.executionStarted = r.executionStarted ∧
    (r.runProver run).1.opened = r.opened := by
  induction run generalizing r with
  | done nip err => simp [round.runProver]
  | checkpoint nextLeafID parkedNodes readerErr ioErr next ih =>
    have hstep : r.runProver (.checkpoint nextLeafID parkedNodes readerErr ioErr next) =
        (r.persistExecution nextLeafID parkedNodes readerErr ioErr).1.runProver
          (next (r.persistExecution nextLeafID parkedNodes readerErr ioErr).2) := rfl
    rw [hstep]
    have hp : ∀ r : round,
        (r.persistExecution nextLeafID parkedNodes readerErr ioErr).1.execution.Members
            = r.execution.Members ∧
        (r.persistExecution nextLeafID parkedNodes readerErr ioErr).1.execution.Statement
            = r.execution.Statement ∧
        (r.persistExecution nextLeafID parkedNodes readerErr ioErr).1.challengesDb
            = r.challengesDb ∧
        (r.persistExecution nextLeafID parkedNodes readerErr ioErr).1.submitMtx
            = r.submitMtx ∧
        (r.persistExecution nextLeafID parkedNodes readerErr ioErr).1.cfg = r.cfg ∧
        (r.persistExecution nextLeafID parkedNodes readerErr ioErr).1.executionStarted
            = r.executionStarted ∧
        (r.persistExecution nextLeafID parkedNodes readerErr ioErr).1.opened = r.opened := by
      intro r
      cases readerErr <;> cases ioErr <;> simp [round.persistExecution, round.saveState]
    have h1 := hp r
    have h2 := ih (r.persistExecution nextLeafID parkedNodes readerErr ioErr).2
      (r.persistExecution nextLeafID parkedNodes readerErr ioErr).1
    refine ⟨?_, ?_, ?_, ?_, ?_, ?_, ?_⟩
    · rw [h2.1, h1.1]
    · rw [h2.2.1, h1.2.1]
    · rw [h2.2.2.1, h1.2.2.1]
    · rw [h2.2.2.2.1, h1.2.2.2.1]
    · rw [h2.2.2.2.2.1, h1.2.2.2.2.1]
    · rw [h2.2.2.2.2.2.1, h1.2.2.2.2.2.1]
    · rw [h2.2.2.2.2.2.2, h1.2.2.2.2.2.2]

theorem saveState_eq {r r' : round} {ioErr err : Option Error}
    (h : r.saveState ioErr = (r', err)) :
    r'.execution = r.execution ∧ r'.challengesDb = r.challengesDb ∧
    r'.submitMtx = r.submitMtx ∧ r'.cfg = r.cfg ∧
    r'.executionStarted = r.executionStarted ∧ r'.opened = r.opened ∧
    r'.executionEndedChan = r.executionEndedChan ∧
    r'.executionStartedChan = r.executionStartedChan ∧ r'.openedChan = r.openedChan := by
  have hf := saveState_fields r ioErr
  rw [h] at hf
  exact hf

theorem runProver_eq {r r' : round} {run : ProverRun} {nip : Option MerkleProof}
    {err : Option Error} (h : r.runProver run = (r', nip, err)) :
    r'.execution.Members = r.execution.Members ∧
    r'.execution.Statement = r.execution.Statement ∧
    r'.challengesDb = r.challengesDb ∧ r'.submitMtx = r.submitMtx ∧ r'.cfg = r.cfg ∧
    r'.executionStarted = r.executionStarted ∧ r'.opened = r.opened := by
  have hf := runProver_fields run r
  rw [h] at hf
  exact hf

theorem execute_returned_nil {T : Type} (M : MerklePrimitive T) (P : Prover) (r r2 : round)
    (env : ExecEnv) (h : r.execute M P env = .returned (r2, none)) :
    ∃ members statement, r.calcMembersAndStatement M = (members, statement, none) ∧
      r2.execution.Members = members ∧ r2.execution.Statement = statement ∧
      r2.challengesDb = r.challengesDb ∧ r2.submitMtx = false := by
  unfold round.execute at h
  simp only at h
  split at h
  · simp at h
  · rename_i ra hsave1
    split at h
    · simp at h
    · rename_i c hc
      split at h
      · simp at h
      · split at h
        · simp at h
        · rename_i members statement hcalc
          split at h
          · simp at h
          · rename_i rb hsave2
            split at h
            · simp at h
            · rename_i rc nip hrun
              split at h
              · simp at h
              · rename_i rd hsave3
                split at h
                · simp at h
                · rename_i c2 hc2
                  have e1 := saveState_eq hsave1
                  have e2 := saveState_eq hsave2
                  have e3 := saveState_eq hsave3
                  have e4 := runProver_eq hrun
                  simp only at e1 e2 e3 e4
                  simp only [Outcome.returned.injEq, Prod.mk.injEq, and_true] at h
                  subst h
                  refine ⟨members, statement, ?_, ?_, ?_, ?_, ?_⟩
                  · rw [← hcalc]
                    exact calcMembersAndStatement_congr M _ _ (by simp [e1.2.1])
                  · simp [e3.1, e4.1, e2.1]
                  · simp [e3.1, e4.2.1, e2.1]
                  · simp [e3.2.1, e4.2.2.1, e2.2.1, e1.2.1]
                  · simp [e3.2.2.1, e4.2.2.2.1, e2.2.2.1]

theorem calc_of_nil_err {T : Type} (M : MerklePrimitive T) (r : round)
    (members : Option (List Bytes)) (statement : Option Bytes)
    (h : r.calcMembersAndStatement M = (members, statement, none)) :
    members = some r.challengesDb.Iterator ∧
      MerkleRoot M r.challengesDb.Iterator = .ok statement := by
  unfold round.calcMembersAndStatement at h
  unfold MerkleRoot
  cases hnew : M.NewTree with
  | error err => rw [hnew] at h; simp at h
  | ok empty =>
    rw [hnew] at h
    simp only [calcMembersLoop_eq] at h ⊢
    cases hfold : List.foldlM M.AddLeaf empty r.challengesDb.Iterator with
    | error err => rw [hfold] at h; simp at h
    | ok tree =>
      rw [hfold] at h
      simp only [List.nil_append, Prod.mk.injEq, and_true] at h
      simp [h.1.symm, h.2]

theorem calc_of_root_ok {T : Type} (M : MerklePrimitive T) (r : round) (statement : Option Bytes)
    (h : MerkleRoot M r.challengesDb.Iterator = .ok statement) :
    r.calcMembersAndStatement M = (some r.challengesDb.Iterator, statement, none) := by
  unfold MerkleRoot at h
  unfold round.calcMembersAndStatement
  cases hnew : M.NewTree with
  | error err => rw [hnew] at h; simp at h
  | ok empty =>
    rw [hnew] at h
    simp only [calcMembersLoop_eq] at h ⊢
    cases hfold : List.foldlM M.AddLeaf empty r.challengesDb.Iterator with
    | error err => rw [hfold] at h; simp at h
    | ok tree =>
      rw [hfold] at h
      simp only [Except.ok.injEq] at h
      simp [h]

theorem execute_records {T : Type} (M : MerklePrimitive T) (P : Prover) (r r2 : round)
    (env : ExecEnv) (h : r.execute M P env = .returned (r2, none)) :
    r.calcMembersAndStatement M =
        (some r.challengesDb.Iterator, r2.execution.Statement, none) ∧
      r2.execution.Members = some r.challengesDb.Iterator ∧
      MerkleRoot M r.challengesDb.Iterator = .ok r2.execution.Statement := by
  obtain ⟨members, statement, hcalc, hm, hs, _, _⟩ := execute_returned_nil M P r r2 env h
  obtain ⟨hmem, hroot⟩ := calc_of_nil_err M r members statement hcalc
  subst hm hs
  refine ⟨?_, hmem, hroot⟩
  rw [hcalc, hmem]

theorem run_store (r : round) (calls : List (Bytes × Option Error))
    (hopen : r.isOpen = true) (hmtx : r.submitMtx = false) (hwf : r.challengesDb.wf) :
    ∃ r1, r.submitAll calls = .returned (r1, calls.map Prod.snd) ∧
      r1.isOpen = true ∧ r1.submitMtx = false ∧ r1.challengesDb.wf ∧
      ∀ x, x ∈ r1.challengesDb.keys ↔
        x ∈ r.challengesDb.keys ∨ x ∈ acceptedHashes calls (calls.map Prod.snd) := by
  refine ⟨_, submitAll_open r calls hopen hmtx, ?_, ?_, ?_, ?_⟩
  · simpa [round.isOpen] using hopen
  · simpa using hmtx
  · exact foldPut_wf calls r.challengesDb hwf
  · intro x
    rw [acceptedHashes_map_snd]
    exact mem_foldPut calls r.challengesDb x

theorem submit_again (r : round) (h : Bytes) (hopen : r.isOpen = true)
    (hmtx : r.submitMtx = false) (hwf : r.challengesDb.wf) (hmem : h ∈ r.challengesDb.keys) :
    r.submit h none = .returned (r, none) := by
  rw [submit_open r h none hopen hmtx]
  have hput : (r.challengesDb.Put h none).1 = r.challengesDb := by
    simp only [LevelDB.Put, insertKey_of_mem h r.challengesDb.keys hwf hmem]
  rw [hput]

/-! ## Members and statement of an executed round -/

/-- C1: for a round that is open over an empty store and any run of
`round.submit` calls, every call returns, and when the `round.execute` that
follows returns a nil error, the members list it records (the one computed by
`calcMembersAndStatement`) holds exactly the hashes whose submit returned nil,
each exactly once: it has no duplicates, a hash occurs in it if and only if it
was submitted with a nil error, its length is the number of distinct such
hashes, and submitting one of them once more changes nothing in the round. -/
theorem members_exactly_the_submitted_hashes {T : Type} (M : MerklePrimitive T) (P : Prover)
    (r : round) (calls : List (Bytes × Option Error)) (env : ExecEnv)
    (hopen : r.isOpen = true) (hmtx : r.submitMtx = false)
    (hempty : r.challengesDb.keys = []) :
    ∃ r1 errs, r.submitAll calls = .returned (r1, errs) ∧ errs.length = calls.length ∧
      ∀ r2, r1.execute M P env = .returned (r2, none) →
        ∃ members, r2.execution.Members = some members ∧
          (r1.calcMembersAndStatement M).1 = some members ∧
          members.Nodup ∧
          (∀ h, h ∈ members ↔ h ∈ acceptedHashes calls errs) ∧
          members.length = (acceptedHashes calls errs).dedup.length ∧
          (∀ h, h ∈ acceptedHashes calls errs → r1.submit h none = .returned (r1, none)) := by
  have hwf : r.challengesDb.wf := by simp [LevelDB.wf, hempty]
  obtain ⟨r1, hrun, hopen1, hmtx1, hwf1, hmem1⟩ := run_store r calls hopen hmtx hwf
  refine ⟨r1, calls.map Prod.snd, hrun, by simp, ?_⟩
  intro r2 hexec
  obtain ⟨hcalc, hmembers, _⟩ := execute_records M P r1 r2 env hexec
  have hmem : ∀ h, h ∈ r1.challengesDb.keys ↔ h ∈ acceptedHashes calls (calls.map Prod.snd) := by
    intro h
    rw [hmem1 h, hempty]
    simp
  have hnodup : r1.challengesDb.keys.Nodup := pairwise_lt_nodup _ hwf1
  refine ⟨r1.challengesDb.keys, hmembers, by rw [hcalc]; rfl, hnodup, hmem, ?_, ?_⟩
  · apply List.Perm.length_eq
    apply (List.perm_ext_iff_of_nodup hnodup (List.nodup_dedup _)).mpr
    intro h
    rw [hmem h, List.mem_dedup]
  · intro h hh
    exact submit_again r1 h hopen1 hmtx1 hwf1 ((hmem h).mpr hh)

/-- C2, as amended: for pairwise distinct hashes submitted successfully, one
after the other, to a round that is open over an empty store, the members list
recorded by a `round.execute` that returns nil is the list of these hashes in
ascending key order (`bytes.Compare`): it is a permutation of the submitted
list, strictly ascending, and it equals the submitted list exactly when that
list was submitted in ascending order. -/
theorem members_in_key_order {T : Type} (M : MerklePrimitive T) (P : Prover)
    (r : round) (hs : List Bytes) (env : ExecEnv)
    (hopen : r.isOpen = true) (hmtx : r.submitMtx = false)
    (hempty : r.challengesDb.keys = []) (hdistinct : hs.Nodup) :
    ∃ r1, r.submitAll (hs.map (fun h => (h, none))) = .returned (r1, hs.map (fun _ => none)) ∧
      ∀ r2, r1.execute M P env = .returned (r2, none) →
        ∃ members, r2.execution.Members = some members ∧
          members.Perm hs ∧
          members.Pairwise (fun a b => bytesCompare a b = .lt) ∧
          (members = hs ↔ hs.Pairwise (fun a b => bytesCompare a b = .lt)) := by
  have hwf : r.challengesDb.wf := by simp [LevelDB.wf, hempty]
  obtain ⟨r1, hrun, _, _, hwf1, hmem1⟩ :=
    run_store r (hs.map (fun h => (h, none))) hopen hmtx hwf
  have hsnd : (hs.map (fun h => ((h, none) : Bytes × Option Error))).map Prod.snd
      = hs.map (fun _ => none) := by
    rw [List.map_map]
    rfl
  have hacc : acceptedHashes (hs.map (fun h => ((h, none) : Bytes × Option Error)))
      (hs.map (fun _ => none)) = hs := by
    rw [← hsnd, acceptedHashes_map_snd]
    simp [List.filter_map, Function.comp_def]
  rw [hsnd] at hrun hmem1
  refine ⟨r1, hrun, ?_⟩
  intro r2 hexec
  obtain ⟨_, hmembers, _⟩ := execute_records M P r1 r2 env hexec
  have hperm : r1.challengesDb.keys.Perm hs := by
    apply (List.perm_ext_iff_of_nodup (pairwise_lt_nodup _ hwf1) hdistinct).mpr
    intro h
    rw [hmem1 h, hempty, hacc]
    simp
  refine ⟨r1.challengesDb.keys, hmembers, hperm, hwf1, ?_⟩
  constructor
  · intro heq
    rw [← heq]
    exact hwf1
  · intro hsorted
    refine List.Perm.eq_of_sorted ?_ hwf1 hsorted hperm
    intro a b _ _ hab hba
    have := bytesCompare_lt_trans a b a hab hba
    exact absurd rfl (bytesCompare_lt_ne a a this)

theorem members_exactly_the_submitted_hashes_witness :
    freshOpenRound.submitThenExecute listMerkle echoProver sampleCalls quietEnv =
        some ([none, none, none, some (.new "write failed")], some [[1], [2]]) ∧
      ∃ r1 errs, freshOpenRound.submitAll sampleCalls = .returned (r1, errs) ∧
        errs.length = sampleCalls.length ∧
        ∀ r2, r1.execute listMerkle echoProver quietEnv = .returned (r2, none) →
          ∃ members, r2.execution.Members = some members ∧
            (r1.calcMembersAndStatement listMerkle).1 = some members ∧
            members.Nodup ∧
            (∀ h, h ∈ members ↔ h ∈ acceptedHashes sampleCalls errs) ∧
            members.length = (acceptedHashes sampleCalls errs).dedup.length ∧
            (∀ h, h ∈ acceptedHashes sampleCalls errs →
              r1.submit h none = .returned (r1, none)) :=
  ⟨rfl,
    members_exactly_the_submitted_hashes listMerkle echoProver freshOpenRound sampleCalls
      quietEnv rfl rfl rfl⟩

/-- C2 as stated fails: the distinct hashes `[2]` and `[1]`, submitted in this
order to a newly opened round, both with a nil error, are recorded by `execute`
as the members `[[1], [2]]`, not `[[2], [1]]`. -/
theorem members_not_in_insertion_order :
    freshOpenRound.isOpen = true ∧
      freshOpenRound.submitThenExecute listMerkle echoProver [([2], none), ([1], none)] quietEnv =
        some ([none, none], some [[1], [2]]) ∧
      ([[1], [2]] : List Bytes) ≠ [[2], [1]] :=
  ⟨rfl, rfl, by decide⟩

theorem members_in_key_order_witness :
    freshOpenRound.submitThenExecute listMerkle echoProver [([2], none), ([1], none)] quietEnv =
        some ([none, none], some [[1], [2]]) ∧
      ∃ r1, freshOpenRound.submitAll (([[2], [1]] : List Bytes).map (fun h => (h, none))) =
          .returned (r1, ([[2], [1]] : List Bytes).map (fun _ => none)) ∧
        ∀ r2, r1.execute listMerkle echoProver quietEnv = .returned (r2, none) →
          ∃ members, r2.execution.Members = some members ∧
            members.Perm [[2], [1]] ∧
            members.Pairwise (fun a b => bytesCompare a b = .lt) ∧
            (members = [[2], [1]] ↔
              ([[2], [1]] : List Bytes).Pairwise (fun a b => bytesCompare a b = .lt)) :=
  ⟨rfl,
    members_in_key_order listMerkle echoProver freshOpenRound [[2], [1]] quietEnv rfl rfl rfl
      (by decide)⟩

/-- C3: `calcMembersAndStatement` returns a nil error exactly when the Merkle
primitive builds the tree over the keys of the store, and then it returns the
keys in iteration order as members and, as statement, the root of the tree
obtained by adding these members as leaves, in list order, to an empty tree;
an `execute` that returns nil has recorded exactly this pair as
`execution.Members` and `execution.Statement`. -/
theorem statement_is_merkle_root_of_members {T : Type} (M : MerklePrimitive T) (P : Prover)
    (r : round) (env : ExecEnv) :
    (∀ members statement, r.calcMembersAndStatement M = (members, statement, none) →
        ∃ ms, members = some ms ∧ ms = r.challengesDb.Iterator ∧
          MerkleRoot M ms = .ok statement) ∧
      (∀ statement, MerkleRoot M r.challengesDb.Iterator = .ok statement →
        r.calcMembersAndStatement M = (some r.challengesDb.Iterator, statement, none)) ∧
      (∀ r2, r.execute M P env = .returned (r2, none) →
        ∃ ms, r.calcMembersAndStatement M = (some ms, r2.execution.Statement, none) ∧
          r2.execution.Members = some ms ∧
          MerkleRoot M ms = .ok r2.execution.Statement) := by
  refine ⟨?_, ?_, ?_⟩
  · intro members statement h
    obtain ⟨hm, hroot⟩ := calc_of_nil_err M r members statement h
    exact ⟨_, hm, rfl, hroot⟩
  · intro statement h
    exact calc_of_root_ok M r statement h
  · intro r2 h
    obtain ⟨hcalc, hm, hroot⟩ := execute_records M P r r2 env h
    exact ⟨_, hcalc, hm, hroot⟩

theorem statement_is_merkle_root_of_members_witness :
    sampleOpenRound.calcMembersAndStatement listMerkle = (some [[1], [2]], some [1, 2], none) ∧
      ∃ ms, some [[1], [2]] = some ms ∧ ms = sampleOpenRound.challengesDb.Iterator ∧
        MerkleRoot listMerkle ms = .ok (some [1, 2]) :=
  ⟨rfl,
    (statement_is_merkle_root_of_members listMerkle echoProver sampleOpenRound quietEnv).1
      (some [[1], [2]]) (some [1, 2]) rfl⟩

/-! ## Submitting to a round that is not open -/

theorem execute_stamps {T : Type} (M : MerklePrimitive T) (P : Prover) (r r2 : round)
    (env : ExecEnv) (e : Option Error) (h : r.execute M P env = .returned (r2, e)) :
    r2.executionStarted = .unixNano env.now := by
  unfold round.execute at h
  simp only at h
  split at h
  · rename_i ra err hsave1
    have e1 := saveState_eq hsave1
    simp only [Outcome.returned.injEq, Prod.mk.injEq] at h
    rw [← h.1, e1.2.2.2.2.1]
  · rename_i ra hsave1
    have e1 := saveState_eq hsave1
    split at h
    · simp at h
    · split at h
      · simp at h
      · split at h
        · simp only [Outcome.returned.injEq, Prod.mk.injEq] at h
          rw [← h.1]
          exact e1.2.2.2.2.1
        · split at h
          · rename_i rb err hsave2
            have e2 := saveState_eq hsave2
            simp only [Outcome.returned.injEq, Prod.mk.injEq] at h
            rw [← h.1, e2.2.2.2.2.1]
            exact e1.2.2.2.2.1
          · rename_i rb hsave2
            have e2 := saveState_eq hsave2
            split at h
            · rename_i rc nip err hrun
              have e4 := runProver_eq hrun
              simp only [Outcome.returned.injEq, Prod.mk.injEq] at h
              rw [← h.1]
              simp only
              rw [e4.2.2.2.2.2.1, e2.2.2.2.2.1]
              exact e1.2.2.2.2.1
            · rename_i rc nip hrun
              have e4 := runProver_eq hrun
              split at h
              · rename_i rd err hsave3
                have e3 := saveState_eq hsave3
                simp only [Outcome.returned.injEq, Prod.mk.injEq] at h
                rw [← h.1, e3.2.2.2.2.1]
                simp only
                rw [e4.2.2.2.2.2.1, e2.2.2.2.2.1]
                exact e1.2.2.2.2.1
              · rename_i rd hsave3
                have e3 := saveState_eq hsave3
                split at h
                · simp at h
                · simp only [Outcome.returned.injEq, Prod.mk.injEq] at h
                  rw [← h.1]
                  simp only
                  rw [e3.2.2.2.2.1]
                  simp only
                  rw [e4.2.2.2.2.2.1, e2.2.2.2.2.1]
                  exact e1.2.2.2.2.1

theorem recoverExecution_stamps {T : Type} (M : MerklePrimitive T) (P : Prover) (r r2 : round)
    (state : executionState) (env : RecoverEnv) (e : Option Error)
    (h : r.recoverExecution M P state env = .returned (r2, e)) :
    ∃ cache, r.stateCache = some cache ∧
      r2.executionStarted = .unixNano (toInt64 cache.ExecutionStarted) := by
  unfold round.recoverExecution at h
  split at h
  · simp at h
  · rename_i cache hcache
    refine ⟨cache, hcache, ?_⟩
    simp only at h
    split at h
    · simp at h
    · rename_i c hc
      split at h
      · rename_i ra err hstep
        simp only [Outcome.returned.injEq, Prod.mk.injEq] at h
        rw [← h.1]
        split at hstep
        · simp at hstep
        · split at hstep
          · simp only [Prod.mk.injEq] at hstep
            rw [← hstep.1]
          · exact (saveState_eq hstep).2.2.2.2.1
      · rename_i ra hstep
        have hra : ra.executionStarted = .unixNano (toInt64 cache.ExecutionStarted) := by
          split at hstep
          · simp only [Prod.mk.injEq] at hstep
            rw [← hstep.1]
          · split at hstep
            · simp at hstep
            · exact (saveState_eq hstep).2.2.2.2.1
        split at h
        · rename_i rc nip err hrun
          have e4 := runProver_eq hrun
          simp only [Outcome.returned.injEq, Prod.mk.injEq] at h
          rw [← h.1]
          simp only
          rw [e4.2.2.2.2.2.1, hra]
        · rename_i rc nip hrun
          have e4 := runProver_eq hrun
          split at h
          · rename_i rd err hsave
            have e3 := saveState_eq hsave
            simp only [Outcome.returned.injEq, Prod.mk.injEq] at h
            rw [← h.1, e3.2.2.2.2.1]
            simp only
            rw [e4.2.2.2.2.2.1, hra]
          · rename_i rd hsave
            have e3 := saveState_eq hsave
            split at h
            · simp at h
            · simp only [Outcome.returned.injEq, Prod.mk.injEq] at h
              rw [← h.1]
              simp only
              rw [e3.2.2.2.2.1]
              simp only
              rw [e4.2.2.2.2.2.1, hra]

/-- C4: `round.submit` on a round that is not open returns the error "round is
not open" and leaves the round, the store included, as it was; a round is not
open while `opened` is the zero time and as soon as `executionStarted` is
stamped, which is the case for every round that `execute` or
`recoverExecution` returns, with or without an error; and a submit that
changes the store was made with `opened` set and `executionStarted` unset. -/
theorem submit_rejected_unless_open {T : Type} (M : MerklePrimitive T) (P : Prover)
    (r : round) (challenge : Bytes) (ioErr : Option Error) :
    (r.isOpen = false →
        r.submit challenge ioErr = .returned (r, some (.new "round is not open"))) ∧
      (r.opened = .zero ∨ r.executionStarted ≠ .zero → r.isOpen = false) ∧
      (∀ (r0 : round) (env : ExecEnv) (e : Option Error),
        r0.execute M P env = .returned (r, e) →
        r.executionStarted ≠ .zero ∧ r.isOpen = false) ∧
      (∀ (r0 : round) (state : executionState) (env : RecoverEnv) (e : Option Error),
        r0.recoverExecution M P state env = .returned (r, e) →
        r.executionStarted ≠ .zero ∧ r.isOpen = false) ∧
      (∀ (r1 : round) (err : Option Error), r.submit challenge ioErr = .returned (r1, err) →
        r1.challengesDb ≠ r.challengesDb →
        r.opened.IsZero = false ∧ r.executionStarted.IsZero = true) := by
  refine ⟨?_, ?_, ?_, ?_, ?_⟩
  · intro h
    simp [round.submit, h]
  · intro h
    rcases h with h | h
    · simp [round.isOpen, h, Time.IsZero]
    · cases hs : r.executionStarted with
      | zero => exact absurd hs h
      | unixNano ns => simp [round.isOpen, hs, Time.IsZero]
  · intro r0 env e h
    have hs := execute_stamps M P r0 r env e h
    simp [round.isOpen, hs, Time.IsZero]
  · intro r0 state env e h
    obtain ⟨cache, _, hs⟩ := recoverExecution_stamps M P r0 r state env e h
    simp [round.isOpen, hs, Time.IsZero]
  · intro r1 err h hne
    by_cases hopen : r.isOpen = true
    · simpa [round.isOpen] using hopen
    · simp only [round.submit, hopen, Bool.not_false, if_true, Outcome.returned.injEq,
        Prod.mk.injEq, Bool.false_eq_true] at h
      exact absurd (by rw [← h.1]) hne

theorem submit_rejected_unless_open_witness :
    (newRound echoProver { N := 4, MemoryLayers := 2 } "0" { keys := [] } none).submit [7] none =
      .returned (newRound echoProver { N := 4, MemoryLayers := 2 } "0" { keys := [] } none,
        some (.new "round is not open")) :=
  (submit_rejected_unless_open listMerkle echoProver
    (newRound echoProver { N := 4, MemoryLayers := 2 } "0" { keys := [] } none) [7] none).1 rfl

/-! ## The round-robin verifier -/

theorem ringOrder_succ (len start n : Nat) (hstart : start < len) :
    ringOrder len start (n + 1) = start :: ringOrder len ((start + 1) % len) n := by
  simp only [ringOrder, List.range_succ_eq_map, List.map_cons, List.map_map, Nat.add_zero,
    Nat.mod_eq_of_lt hstart]
  congr 1
  apply List.map_congr_left
  intro i _
  simp only [Function.comp, Nat.mod_add_mod]
  congr 1
  omega

theorem ringOrder_nodup (len start n : Nat) (hn : n ≤ len) : (ringOrder len start n).Nodup := by
  apply List.Nodup.map_on _ (List.nodup_range n)
  intro i hi j hj hij
  have hi' : i < len := lt_of_lt_of_le (List.mem_range.mp hi) hn
  have hj' : j < len := lt_of_lt_of_le (List.mem_range.mp hj) hn
  have h1 : i ≡ j [MOD len] := Nat.ModEq.add_left_cancel' start hij
  have h2 : i % len = j % len := h1
  rwa [Nat.mod_eq_of_lt hi', Nat.mod_eq_of_lt hj'] at h2

theorem mem_ringOrder_full (len start j : Nat) (hstart : start < len) (hj : j < len) :
    j ∈ ringOrder len start len := by
  simp only [ringOrder, List.mem_map, List.mem_range]
  refine ⟨(j + len - start) % len, Nat.mod_lt _ (by omega), ?_⟩
  rw [Nat.add_mod_mod]
  have : start + (j + len - start) = j + len := by omega
  rw [this, Nat.add_mod_right, Nat.mod_eq_of_lt hj]

/-- While the services met in ring order fail transiently, the loop runs on. -/
theorem verifyLoop_skip {W : Type} (services : List (ChallengeVerifier W))
    (challenge signature : Bytes) (k : Nat) :
    ∀ (n start : Nat) (w : W) (calls : List Nat), start < services.length →
      (∀ i, i < k → ∃ svc, services[(start + i) % services.length]? = some svc ∧
        failsTransiently svc challenge signature) →
      ∃ w', roundRobinChallengeVerifier.verifyLoop services challenge signature (n + k) start w
            calls =
          roundRobinChallengeVerifier.verifyLoop services challenge signature n
            ((start + k) % services.length) w' (calls ++ ringOrder services.length start k) := by
  induction k with
  | zero =>
    intro n start w calls hstart _
    exact ⟨w, by simp [ringOrder, Nat.mod_eq_of_lt hstart]⟩
  | succ k ih =>
    intro n start w calls hstart hfail
    obtain ⟨svc, hsvc, hsvcfail⟩ := hfail 0 (Nat.succ_pos k)
    simp only [Nat.add_zero, Nat.mod_eq_of_lt hstart] at hsvc
    obtain ⟨hash, err, w1, hcall, herr⟩ := hsvcfail w
    have hlen : 0 < services.length := lt_of_le_of_lt (Nat.zero_le _) hstart
    have hnext : (start + 1) % services.length < services.length := Nat.mod_lt _ hlen
    obtain ⟨w', hrest⟩ := ih n ((start + 1) % services.length) w1 (calls ++ [start]) hnext
      (by
        intro i hi
        obtain ⟨svc', hsvc', hf'⟩ := hfail (i + 1) (Nat.succ_lt_succ hi)
        refine ⟨svc', ?_, hf'⟩
        rw [Nat.mod_add_mod]
        rw [← hsvc']
        congr 2
        omega)
    refine ⟨w', ?_⟩
    have hstep : roundRobinChallengeVerifier.verifyLoop services challenge signature
        (n + (k + 1)) start w calls =
        roundRobinChallengeVerifier.verifyLoop services challenge signature (n + k)
          ((start + 1) % services.length) w1 (calls ++ [start]) := by
      show roundRobinChallengeVerifier.verifyLoop services challenge signature
        ((n + k) + 1) start w calls = _
      simp only [roundRobinChallengeVerifier.verifyLoop, hsvc, hcall, herr]
      simp
    rw [hstep, hrest, ringOrder_succ _ _ _ hstart]
    have hidx : start + 1 + k = start + (k + 1) := by omega
    simp only [Nat.mod_add_mod, List.append_assoc, List.singleton_append, hidx]

theorem ringOrder_snoc (len start n : Nat) :
    ringOrder len start (n + 1) = ringOrder len start n ++ [(start + n) % len] := by
  simp [ringOrder, List.range_succ]

theorem ringOrder_zero_start (len n : Nat) (hn : n ≤ len) : ringOrder len 0 n = List.range n := by
  simp only [ringOrder, Nat.zero_add]
  conv_rhs => rw [← List.map_id (List.range n)]
  apply List.map_congr_left
  intro i hi
  exact Nat.mod_eq_of_lt (lt_of_lt_of_le (List.mem_range.mp hi) hn)

theorem ringOrder_length (len start n : Nat) : (ringOrder len start n).length = n := by
  simp [ringOrder]

/-- C5: over `N ≥ 1` downstream verifiers and from any last-used index below
`N`, when every downstream verifier answers with an error that is not
`ErrChallengeInvalid`, `Verify` returns a nil hash and `ErrCouldNotVerify`
after exactly `N` downstream calls, made in ring order from the last-used
index, each verifier being called exactly once. -/
theorem all_transient_failures_give_could_not_verify {W : Type}
    (a : roundRobinChallengeVerifier W) (w : W) (challenge signature : Bytes)
    (hN : 1 ≤ a.services.length) (hstart : a.lastUsedSvc < a.services.length)
    (hfail : ∀ i, i < a.services.length →
      ∃ svc, a.services[i]? = some svc ∧ failsTransiently svc challenge signature) :
    ∃ res, a.Verify w challenge signature = .returned res ∧
      res.hash = none ∧ res.err = some .ErrCouldNotVerify ∧
      res.calls = ringOrder a.services.length a.lastUsedSvc a.services.length ∧
      res.calls.length = a.services.length ∧
      (∀ j, j < a.services.length → res.calls.count j = 1) ∧
      res.lastUsedSvc = a.lastUsedSvc := by
  obtain ⟨w', hskip⟩ := verifyLoop_skip a.services challenge signature a.services.length 0
    a.lastUsedSvc w [] hstart
    (fun i _ => hfail _ (Nat.mod_lt _ hN))
  simp only [Nat.zero_add, List.nil_append, Nat.add_mod_right, Nat.mod_eq_of_lt hstart,
    roundRobinChallengeVerifier.verifyLoop] at hskip
  refine ⟨_, hskip, rfl, rfl, rfl, ringOrder_length _ _ _, ?_, rfl⟩
  intro j hj
  exact List.count_eq_one_of_mem (ringOrder_nodup _ _ _ (le_refl _))
    (mem_ringOrder_full _ _ j hstart hj)

/-- C6: for a newly constructed round-robin verifier (last-used index 0) whose
verifiers at the positions below `p` answer with errors that are not
`ErrChallengeInvalid` and whose verifier at position `p` answers with an error
that is `ErrChallengeInvalid`, `Verify` makes exactly `p + 1` downstream calls,
to the positions `0, ..., p` in this order and to none after `p`, and returns a
nil hash with an error that is `ErrChallengeInvalid`. -/
theorem invalid_challenge_stops_the_ring {W : Type} (services : List (ChallengeVerifier W))
    (w : W) (challenge signature : Bytes) (p : Nat) (hp : p < services.length)
    (hfail : ∀ i, i < p →
      ∃ svc, services[i]? = some svc ∧ failsTransiently svc challenge signature)
    (hrej : ∃ svc, services[p]? = some svc ∧ rejectsAsInvalid svc challenge signature) :
    ∃ res err, (NewRoundRobinChallengeVerifier services).Verify w challenge signature =
        .returned res ∧
      res.hash = none ∧ res.err = some err ∧ errorsIs err .ErrChallengeInvalid = true ∧
      res.calls = List.range (p + 1) ∧ res.calls.length = p + 1 ∧
      (∀ j, p < j → j ∉ res.calls) := by
  have hlen : 0 < services.length := lt_of_le_of_lt (Nat.zero_le _) hp
  obtain ⟨m, hm⟩ : ∃ m, services.length = (m + 1) + p := ⟨services.length - p - 1, by omega⟩
  obtain ⟨w', hskip⟩ := verifyLoop_skip services challenge signature p (m + 1) 0 w [] hlen
    (by
      intro i hi
      rw [Nat.zero_add, Nat.mod_eq_of_lt (lt_trans hi hp)]
      exact hfail i hi)
  obtain ⟨svc, hsvc, hsvcrej⟩ := hrej
  obtain ⟨hash, err, w2, hcall, herr⟩ := hsvcrej w'
  rw [Nat.zero_add, Nat.mod_eq_of_lt hp, List.nil_append,
    ringOrder_zero_start _ _ (le_of_lt hp)] at hskip
  refine ⟨{ hash := none, err := some err, lastUsedSvc := p, world := w2,
            calls := List.range p ++ [p] }, err, ?_, rfl, rfl, herr, ?_, ?_, ?_⟩
  · simp only [roundRobinChallengeVerifier.Verify, NewRoundRobinChallengeVerifier]
    rw [hm, hskip]
    simp only [roundRobinChallengeVerifier.verifyLoop, hsvc, hcall, herr, if_true]
  · simp [List.range_succ]
  · simp
  · intro j hj
    simp only [List.mem_append, List.mem_range, List.mem_singleton, not_or]
    omega

/-- C7: when the first `k < N` verifiers in ring order from the last-used one
answer with errors that are not `ErrChallengeInvalid` and the next one answers
`(h, nil)`, `Verify` returns `(h, nil)` after calling exactly these `k + 1`
verifiers, in ring order and each exactly once, and no other one. -/
theorem failover_returns_first_success {W : Type} (a : roundRobinChallengeVerifier W) (w : W)
    (challenge signature : Bytes) (k : Nat) (h : Option Bytes)
    (hstart : a.lastUsedSvc < a.services.length) (hk : k < a.services.length)
    (hfail : ∀ i, i < k →
      ∃ svc, a.services[(a.lastUsedSvc + i) % a.services.length]? = some svc ∧
        failsTransiently svc challenge signature)
    (hok : ∃ svc, a.services[(a.lastUsedSvc + k) % a.services.length]? = some svc ∧
      succeedsWith svc challenge signature h) :
    ∃ res, a.Verify w challenge signature = .returned res ∧
      res.hash = h ∧ res.err = none ∧
      res.calls = ringOrder a.services.length a.lastUsedSvc (k + 1) ∧
      res.calls.Nodup ∧ res.calls.length = k + 1 ∧
      res.lastUsedSvc = (a.lastUsedSvc + k) % a.services.length := by
  obtain ⟨m, hm⟩ : ∃ m, a.services.length = (m + 1) + k :=
    ⟨a.services.length - k - 1, by omega⟩
  obtain ⟨w', hskip⟩ := verifyLoop_skip a.services challenge signature k (m + 1)
    a.lastUsedSvc w [] hstart hfail
  obtain ⟨svc, hsvc, hsvcok⟩ := hok
  obtain ⟨w2, hcall⟩ := hsvcok w'
  rw [List.nil_append] at hskip
  refine ⟨{ hash := h, err := none, lastUsedSvc := (a.lastUsedSvc + k) % a.services.length,
            world := w2,
            calls := ringOrder a.services.length a.lastUsedSvc k ++
              [(a.lastUsedSvc + k) % a.services.length] }, ?_, rfl, rfl, ?_, ?_, ?_, rfl⟩
  · simp only [roundRobinChallengeVerifier.Verify]
    have hlen : roundRobinChallengeVerifier.verifyLoop a.services challenge signature
        a.services.length a.lastUsedSvc w [] =
        roundRobinChallengeVerifier.verifyLoop a.services challenge signature (m + 1 + k)
          a.lastUsedSvc w [] := by
      rw [← hm]
    rw [hlen, hskip]
    simp only [roundRobinChallengeVerifier.verifyLoop, hsvc, hcall]
  · exact (ringOrder_snoc _ _ _).symm
  · rw [← ringOrder_snoc]
    exact ringOrder_nodup _ _ _ hk
  · rw [← ringOrder_snoc, ringOrder_length]

theorem unavailableVerifier_fails (challenge signature : Bytes) :
    failsTransiently unavailableVerifier challenge signature :=
  fun _ => ⟨_, _, _, rfl, rfl⟩

theorem rejectingVerifier_rejects (challenge signature : Bytes) :
    rejectsAsInvalid rejectingVerifier challenge signature :=
  fun _ => ⟨_, _, _, rfl, rfl⟩

theorem acceptingVerifier_succeeds (challenge signature : Bytes) :
    succeedsWith acceptingVerifier challenge signature (some challenge) :=
  fun _ => ⟨_, rfl⟩

theorem all_transient_failures_give_could_not_verify_witness :
    (match roundRobinChallengeVerifier.Verify
        { services := [unavailableVerifier, unavailableVerifier, unavailableVerifier],
          lastUsedSvc := 1 } 0 [9] [8] with
      | .returned res => some (res.hash, res.err, res.lastUsedSvc, res.world, res.calls)
      | _ => none) = some (none, some .ErrCouldNotVerify, 1, 3, [1, 2, 0]) ∧
    ∃ res, roundRobinChallengeVerifier.Verify
        { services := [unavailableVerifier, unavailableVerifier, unavailableVerifier],
          lastUsedSvc := 1 } 0 [9] [8] = .returned res ∧
      res.hash = none ∧ res.err = some .ErrCouldNotVerify ∧
      res.calls = ringOrder 3 1 3 ∧ res.calls.length = 3 ∧
      (∀ j, j < 3 → res.calls.count j = 1) ∧ res.lastUsedSvc = 1 :=
  ⟨rfl,
    all_transient_failures_give_could_not_verify
      { services := [unavailableVerifier, unavailableVerifier, unavailableVerifier],
        lastUsedSvc := 1 } 0 [9] [8] (by decide) (by decide)
      (fun i hi => by
        have hi3 : i < 3 := hi
        interval_cases i <;> exact ⟨unavailableVerifier, rfl, unavailableVerifier_fails _ _⟩)⟩

theorem invalid_challenge_stops_the_ring_witness :
    (match (NewRoundRobinChallengeVerifier
          [unavailableVerifier, rejectingVerifier, acceptingVerifier]).Verify 0 [9] [8] with
      | .returned res => some (res.hash, res.err, res.lastUsedSvc, res.world, res.calls)
      | _ => none) =
        some (none, some (.wrap "gateway: " .ErrChallengeInvalid), 1, 2, [0, 1]) ∧
    ∃ res err, (NewRoundRobinChallengeVerifier
          [unavailableVerifier, rejectingVerifier, acceptingVerifier]).Verify 0 [9] [8] =
        .returned res ∧
      res.hash = none ∧ res.err = some err ∧ errorsIs err .ErrChallengeInvalid = true ∧
      res.calls = List.range (1 + 1) ∧ res.calls.length = 1 + 1 ∧
      (∀ j, 1 < j → j ∉ res.calls) :=
  ⟨rfl,
    invalid_challenge_stops_the_ring [unavailableVerifier, rejectingVerifier, acceptingVerifier]
      0 [9] [8] 1 (by decide)
      (fun i hi => by
        interval_cases i
        exact ⟨unavailableVerifier, rfl, unavailableVerifier_fails _ _⟩)
      ⟨rejectingVerifier, rfl, rejectingVerifier_rejects _ _⟩⟩

theorem failover_returns_first_success_witness :
    (match (NewRoundRobinChallengeVerifier [unavailableVerifier, acceptingVerifier]).Verify
        0 [9] [8] with
      | .returned res => some (res.hash, res.err, res.lastUsedSvc, res.world, res.calls)
      | _ => none) = some (some [9], none, 1, 2, [0, 1]) ∧
    ∃ res, (NewRoundRobinChallengeVerifier [unavailableVerifier, acceptingVerifier]).Verify
        0 [9] [8] = .returned res ∧
      res.hash = some [9] ∧ res.err = none ∧
      res.calls = ringOrder 2 0 (1 + 1) ∧
      res.calls.Nodup ∧ res.calls.length = 1 + 1 ∧
      res.lastUsedSvc = (0 + 1) % 2 :=
  ⟨rfl,
    failover_returns_first_success
      (NewRoundRobinChallengeVerifier [unavailableVerifier, acceptingVerifier]) 0 [9] [8] 1
      (some [9]) (by decide) (by decide)
      (fun i hi => by
        interval_cases i
        exact ⟨unavailableVerifier, rfl, unavailableVerifier_fails _ _⟩)
      ⟨acceptingVerifier, rfl, acceptingVerifier_succeeds _ _⟩⟩

/-! ## The caching verifier -/

theorem Cache.Get_of_not_contains {K V : Type} [DecidableEq K] (c : Cache K V) (key : K)
    (h : c.Contains key = false) : c.Get key = (c, none) := by
  have hfind : c.items.find? (fun e => decide (e.1 = key)) = none := by
    rw [List.find?_eq_none]
    intro e he
    simp only [Cache.Contains, List.any_eq_false] at h
    exact h e he
  simp [Cache.Get, hfind]

theorem Cache.Get_of_contains {K V : Type} [DecidableEq K] (c : Cache K V) (key : K)
    (h : c.Contains key = true) :
    ∃ v rest, c.Get key = ({ c with items := (key, v) :: rest }, some v) := by
  cases hfind : c.items.find? (fun e => decide (e.1 = key)) with
  | none =>
    rw [List.find?_eq_none] at hfind
    simp only [Cache.Contains, List.any_eq_true] at h
    obtain ⟨e, he, hk⟩ := h
    exact absurd hk (hfind e he)
  | some e =>
    have hk : e.1 = key := by
      have := List.find?_some hfind
      simpa using this
    obtain ⟨k, v⟩ := e
    simp only at hk
    subst hk
    exact ⟨v, c.items.filter (fun e => !decide (e.1 = k)), by simp [Cache.Get, hfind]⟩

theorem Cache.Get_head {K V : Type} [DecidableEq K] (c : Cache K V) (key : K) (v : V)
    (rest : List (K × V)) (h : c.items = (key, v) :: rest) :
    ∃ rest', c.Get key = ({ c with items := (key, v) :: rest' }, some v) := by
  simp [Cache.Get, h]

theorem Cache.Add_head {K V : Type} [DecidableEq K] (c : Cache K V) (key : K) (v : V)
    (hcap : 1 ≤ c.size) :
    ∃ rest, (c.Add key v).items = (key, v) :: rest ∧ (c.Add key v).size = c.size := by
  unfold Cache.Add
  split
  · exact ⟨_, rfl, rfl⟩
  · simp only
    split
    · rename_i hlen
      cases hitems : c.items with
      | nil =>
        rw [hitems] at hlen
        simp only [List.length_cons, List.length_nil] at hlen
        omega
      | cons e es => exact ⟨(e :: es).dropLast, by simp [List.dropLast], rfl⟩
    · exact ⟨_, rfl, rfl⟩

theorem Cache.Get_size {K V : Type} [DecidableEq K] (c : Cache K V) (key : K) :
    (c.Get key).1.size = c.size := by
  unfold Cache.Get
  split <;> rfl

theorem verify_head {W : Type} (sha256 : Bytes → Bytes) (a : cachingChallengeVerifier W) (w : W)
    (challenge signature : Bytes) (v : challengeVerifierResult)
    (rest : List (Bytes × challengeVerifierResult))
    (h : a.cache.items = (sha256 (challenge ++ signature), v) :: rest) :
    (a.Verify sha256 w challenge signature).hash = v.hash ∧
      (a.Verify sha256 w challenge signature).err = v.err ∧
      (a.Verify sha256 w challenge signature).world = w ∧
      (a.Verify sha256 w challenge signature).downstreamCalls = 0 := by
  obtain ⟨rest', hget⟩ := Cache.Get_head a.cache _ v rest h
  simp [cachingChallengeVerifier.Verify, hget]

theorem verify_hit {W : Type} (sha256 : Bytes → Bytes) (a : cachingChallengeVerifier W) (w : W)
    (challenge signature : Bytes)
    (h : a.cache.Contains (sha256 (challenge ++ signature)) = true) :
    ∃ v rest, (a.Verify sha256 w challenge signature).hash = v.hash ∧
      (a.Verify sha256 w challenge signature).err = v.err ∧
      (a.Verify sha256 w challenge signature).world = w ∧
      (a.Verify sha256 w challenge signature).downstreamCalls = 0 ∧
      (a.Verify sha256 w challenge signature).self.cache.items =
        (sha256 (challenge ++ signature), v) :: rest := by
  obtain ⟨v, rest, hget⟩ := Cache.Get_of_contains a.cache _ h
  exact ⟨v, rest, by simp [cachingChallengeVerifier.Verify, hget]⟩

theorem verify_miss {W : Type} (sha256 : Bytes → Bytes) (a : cachingChallengeVerifier W) (w : W)
    (challenge signature : Bytes)
    (h : a.cache.Contains (sha256 (challenge ++ signature)) = false) :
    (a.Verify sha256 w challenge signature).hash = (a.verifier w challenge signature).1.1 ∧
      (a.Verify sha256 w challenge signature).err = (a.verifier w challenge signature).1.2 ∧
      (a.Verify sha256 w challenge signature).world = (a.verifier w challenge signature).2 ∧
      (a.Verify sha256 w challenge signature).downstreamCalls = 1 ∧
      (a.Verify sha256 w challenge signature).self.cache =
        if (a.verifier w challenge signature).1.2 == none ||
            errorsIsOpt (a.verifier w challenge signature).1.2 .ErrChallengeInvalid then
          a.cache.Add (sha256 (challenge ++ signature))
            { hash := (a.verifier w challenge signature).1.1,
              err := (a.verifier w challenge signature).1.2 }
        else a.cache := by
  simp [cachingChallengeVerifier.Verify, Cache.Get_of_not_contains a.cache _ h]

/-- C8: for a caching verifier of capacity at least 1, when a `Verify` call
ends with a nil error or with an error that is `ErrChallengeInvalid` (obtained
from the downstream verifier on a miss, or replayed from the cache), the
`Verify` with the same challenge and signature that follows immediately returns
the same hash and the same error, makes no downstream call and leaves the world
as it was. -/
theorem cached_terminal_result_is_replayed {W : Type} (sha256 : Bytes → Bytes)
    (a : cachingChallengeVerifier W) (w : W) (challenge signature : Bytes)
    (hcap : 1 ≤ a.cache.size)
    (hterminal : (a.Verify sha256 w challenge signature).err = none ∨
      errorsIsOpt (a.Verify sha256 w challenge signature).err .ErrChallengeInvalid = true) :
    ((a.Verify sha256 w challenge signature).self.Verify sha256
        (a.Verify sha256 w challenge signature).world challenge signature).hash =
      (a.Verify sha256 w challenge signature).hash ∧
    ((a.Verify sha256 w challenge signature).self.Verify sha256
        (a.Verify sha256 w challenge signature).world challenge signature).err =
      (a.Verify sha256 w challenge signature).err ∧
    ((a.Verify sha256 w challenge signature).self.Verify sha256
        (a.Verify sha256 w challenge signature).world challenge signature).downstreamCalls = 0 ∧
    ((a.Verify sha256 w challenge signature).self.Verify sha256
        (a.Verify sha256 w challenge signature).world challenge signature).world =
      (a.Verify sha256 w challenge signature).world ∧
    ((a.Verify sha256 w challenge signature).downstreamCalls = 1 →
      (a.Verify sha256 w challenge signature).hash = (a.verifier w challenge signature).1.1 ∧
      (a.Verify sha256 w challenge signature).err = (a.verifier w challenge signature).1.2) := by
  cases hc : a.cache.Contains (sha256 (challenge ++ signature)) with
  | true =>
    obtain ⟨v, rest, hh, he, hw, hd, hitems⟩ := verify_hit sha256 a w challenge signature hc
    obtain ⟨h2h, h2e, h2w, h2d⟩ := verify_head sha256
      (a.Verify sha256 w challenge signature).self
      (a.Verify sha256 w challenge signature).world challenge signature v rest hitems
    refine ⟨by rw [h2h, hh], by rw [h2e, he], h2d, h2w, ?_⟩
    intro h1
    rw [hd] at h1
    cases h1
  | false =>
    obtain ⟨hh, he, hw, hd, hcache⟩ := verify_miss sha256 a w challenge signature hc
    have hcond : ((a.verifier w challenge signature).1.2 == none ||
        errorsIsOpt (a.verifier w challenge signature).1.2 .ErrChallengeInvalid) = true := by
      rw [he] at hterminal
      rcases hterminal with h | h
      · simp [h]
      · simp [h]
    rw [hcond, if_pos rfl] at hcache
    obtain ⟨rest, hitems, _⟩ := Cache.Add_head a.cache (sha256 (challenge ++ signature))
      { hash := (a.verifier w challenge signature).1.1,
        err := (a.verifier w challenge signature).1.2 } hcap
    rw [← hcache] at hitems
    obtain ⟨h2h, h2e, h2w, h2d⟩ := verify_head sha256
      (a.Verify sha256 w challenge signature).self
      (a.Verify sha256 w challenge signature).world challenge signature _ rest hitems
    exact ⟨by rw [h2h, hh], by rw [h2e, he], h2d, h2w, fun _ => ⟨hh, he⟩⟩

theorem cached_terminal_result_is_replayed_witness :
    (cachingOverRejecting.Verify plainHash 0 [1] [2]).err =
        some (.wrap "gateway: " .ErrChallengeInvalid) ∧
      (cachingOverRejecting.Verify plainHash 0 [1] [2]).downstreamCalls = 1 ∧
      ((cachingOverRejecting.Verify plainHash 0 [1] [2]).self.Verify plainHash
          (cachingOverRejecting.Verify plainHash 0 [1] [2]).world [1] [2]).err =
        (cachingOverRejecting.Verify plainHash 0 [1] [2]).err ∧
      ((cachingOverRejecting.Verify plainHash 0 [1] [2]).self.Verify plainHash
          (cachingOverRejecting.Verify plainHash 0 [1] [2]).world [1] [2]).downstreamCalls = 0 :=
  ⟨rfl, rfl,
    (cached_terminal_result_is_replayed plainHash cachingOverRejecting 0 [1] [2] (by decide)
      (Or.inr rfl)).2.1,
    (cached_terminal_result_is_replayed plainHash cachingOverRejecting 0 [1] [2] (by decide)
      (Or.inr rfl)).2.2.1⟩

/-- C9: when a `Verify` of a caching verifier of capacity at least 1 misses the
cache, it makes one downstream call and returns the downstream's hash and
error; if that error is not `ErrChallengeInvalid`, the cache is left as it was
and the same `Verify` issued next calls the downstream again; and after the
miss the cache holds an entry for the key if and only if the downstream
answered with a nil error or with an error that is `ErrChallengeInvalid`. -/
theorem transient_errors_are_not_cached {W : Type} (sha256 : Bytes → Bytes)
    (a : cachingChallengeVerifier W) (w : W) (challenge signature : Bytes)
    (hcap : 1 ≤ a.cache.size)
    (hmiss : a.cache.Contains (sha256 (challenge ++ signature)) = false) :
    ((a.Verify sha256 w challenge signature).downstreamCalls = 1 ∧
      (a.Verify sha256 w challenge signature).hash = (a.verifier w challenge signature).1.1 ∧
      (a.Verify sha256 w challenge signature).err = (a.verifier w challenge signature).1.2 ∧
      (a.Verify sha256 w challenge signature).world = (a.verifier w challenge signature).2) ∧
    (∀ err, (a.verifier w challenge signature).1.2 = some err →
      errorsIs err .ErrChallengeInvalid = false →
      (a.Verify sha256 w challenge signature).self.cache = a.cache ∧
      (a.Verify sha256 w challenge signature).err = some err ∧
      ((a.Verify sha256 w challenge signature).self.Verify sha256
        (a.Verify sha256 w challenge signature).world challenge signature).downstreamCalls = 1) ∧
    ((a.Verify sha256 w challenge signature).self.cache.Contains
        (sha256 (challenge ++ signature)) = true ↔
      ((a.verifier w challenge signature).1.2 = none ∨
        errorsIsOpt (a.verifier w challenge signature).1.2 .ErrChallengeInvalid = true)) := by
  obtain ⟨hh, he, hw, hd, hcache⟩ := verify_miss sha256 a w challenge signature hmiss
  refine ⟨⟨hd, hh, he, hw⟩, ?_, ?_⟩
  · intro err herr hnot
    have hcond : ((a.verifier w challenge signature).1.2 == none ||
        errorsIsOpt (a.verifier w challenge signature).1.2 .ErrChallengeInvalid) = false := by
      simp [herr, errorsIsOpt, hnot]
    rw [hcond] at hcache
    simp only [Bool.false_eq_true, if_false] at hcache
    refine ⟨hcache, by rw [he, herr], ?_⟩
    have hmiss2 : (a.Verify sha256 w challenge signature).self.cache.Contains
        (sha256 (challenge ++ signature)) = false := by
      rw [hcache]
      exact hmiss
    exact (verify_miss sha256 _ _ challenge signature hmiss2).2.2.2.1
  · cases hcond : ((a.verifier w challenge signature).1.2 == none ||
        errorsIsOpt (a.verifier w challenge signature).1.2 .ErrChallengeInvalid) with
    | true =>
      rw [hcond, if_pos rfl] at hcache
      obtain ⟨rest, hitems, _⟩ := Cache.Add_head a.cache (sha256 (challenge ++ signature))
        { hash := (a.verifier w challenge signature).1.1,
          err := (a.verifier w challenge signature).1.2 } hcap
      rw [← hcache] at hitems
      constructor
      · intro _
        simpa using hcond
      · intro _
        simp [Cache.Contains, hitems]
    | false =>
      rw [hcond] at hcache
      simp only [Bool.false_eq_true, if_false] at hcache
      rw [hcache, hmiss]
      constructor
      · intro h
        cases h
      · intro h
        have : ((a.verifier w challenge signature).1.2 == none ||
            errorsIsOpt (a.verifier w challenge signature).1.2 .ErrChallengeInvalid) = true := by
          rcases h with h | h
          · simp [h]
          · simp [h]
        rw [hcond] at this
        cases this

theorem transient_errors_are_not_cached_witness :
    (cachingOverUnavailable.Verify plainHash 0 [1] [2]).err = some .ErrCouldNotVerify ∧
      (cachingOverUnavailable.Verify plainHash 0 [1] [2]).self.cache.items = [] ∧
      (cachingOverUnavailable.Verify plainHash 0 [1] [2]).downstreamCalls = 1 ∧
      ((cachingOverUnavailable.Verify plainHash 0 [1] [2]).self.Verify plainHash
        (cachingOverUnavailable.Verify plainHash 0 [1] [2]).world [1] [2]).downstreamCalls = 1 :=
  ⟨rfl, rfl, rfl,
    ((transient_errors_are_not_cached plainHash cachingOverUnavailable 0 [1] [2] (by decide)
      rfl).2.1 .ErrCouldNotVerify rfl rfl).2.2⟩

/-! ## Asking a round for its proof -/

/-- C10: `round.proof(false)` returns the error "round wasn't open" when none
of `opened`, `executionStarted`, `executionEnded` has fired, "round is open"
when `opened` has fired and the other two have not, "round is executing" when
`executionStarted` has fired and `executionEnded` has not, and the record
`(cfg.N, execution.Statement, execution.NIP)` with a nil error when
`executionEnded` has fired, and only then. -/
theorem proof_without_waiting (r : round) :
    (r.openedChan = false → r.executionStartedChan = false → r.executionEndedChan = false →
        r.proof false = .returned (none, some (.new "round wasn't open"))) ∧
      (r.openedChan = true → r.executionStartedChan = false → r.executionEndedChan = false →
        r.proof false = .returned (none, some (.new "round is open"))) ∧
      (r.executionStartedChan = true → r.executionEndedChan = false →
        r.proof false = .returned (none, some (.new "round is executing"))) ∧
      (r.executionEndedChan = true →
        r.proof false = .returned
          (some { N := r.cfg.N, Statement := r.execution.Statement, Proof := r.execution.NIP },
            none)) ∧
      (∀ (p : Option PoetProof), r.proof false = .returned (p, none) →
        r.executionEndedChan = true) := by
  refine ⟨?_, ?_, ?_, ?_, ?_⟩
  · intro h1 h2 h3
    simp [round.proof, h1, h2, h3]
  · intro h1 h2 h3
    simp [round.proof, h1, h2, h3]
  · intro h2 h3
    simp [round.proof, h2, h3]
  · intro h3
    simp [round.proof, h3]
  · intro p h
    cases h3 : r.executionEndedChan with
    | true => rfl
    | false =>
      cases h2 : r.executionStartedChan <;> cases h1 : r.openedChan <;>
        simp [round.proof, h1, h2, h3] at h

theorem proof_without_waiting_witness :
    freshOpenRound.proof false = .returned (none, some (.new "round is open")) :=
  (proof_without_waiting freshOpenRound).2.1 rfl rfl rfl

/-! ## The round-robin ATX provider: what `Get` returns -/

theorem getLoop_spec {ATX W : Type} (services : List (AtxProvider ATX W)) (id : ATXID)
    (n : Nat) :
    ∀ (start : Nat) (w : W) (calls : List (AtxCall ATX)), start < services.length →
      ∃ res fresh,
        roundRobinAtxProvider.getLoop services id n start w calls = .returned res ∧
        res.calls = calls ++ fresh ∧
        answersInOrder services id w fresh res.world ∧
        fresh.map AtxCall.index = ringOrder services.length start fresh.length ∧
        ((res.err = some { id := id } ∧ res.atx = none ∧ fresh.length = n ∧
            ∀ c, c ∈ fresh → c.err ≠ none) ∨
          (res.err = none ∧ ∃ init last, fresh = init ++ [last] ∧ init.length < n ∧
            (∀ c, c ∈ init → c.err ≠ none) ∧ last.err = none ∧ res.atx = last.atx)) := by
  induction n with
  | zero =>
    intro start w calls _
    exact ⟨{ atx := none, err := some { id := id }, lastUsedSvc := start, world := w,
             calls := calls }, [], rfl, by simp, rfl, by simp [ringOrder],
      Or.inl ⟨rfl, rfl, rfl, by simp⟩⟩
  | succ n ih =>
    intro start w calls hstart
    have hsvc : services[start]? = some services[start] := List.getElem?_eq_getElem hstart
    have hlen : 0 < services.length := lt_of_le_of_lt (Nat.zero_le _) hstart
    rcases hcall : services[start] w id with ⟨⟨atx, err⟩, w1⟩
    cases err with
    | none =>
      refine ⟨{ atx := atx, err := none, lastUsedSvc := start, world := w1,
                calls := calls ++ [{ index := start, atx := atx, err := none }] },
        [{ index := start, atx := atx, err := none }], ?_, rfl, ?_, ?_, Or.inr ?_⟩
      · simp only [roundRobinAtxProvider.getLoop, hsvc, hcall]
      · exact ⟨services[start], w1, hsvc, hcall, rfl⟩
      · simp [ringOrder, List.range_succ, Nat.mod_eq_of_lt hstart]
      · exact ⟨rfl, [], _, rfl, Nat.succ_pos n, by simp, rfl, rfl⟩
    | some e =>
      obtain ⟨res, fresh, hrun, hcalls, htie, hidx, hcases⟩ :=
        ih ((start + 1) % services.length) w1
          (calls ++ [{ index := start, atx := atx, err := some e }]) (Nat.mod_lt _ hlen)
      refine ⟨res, { index := start, atx := atx, err := some e } :: fresh, ?_, ?_, ?_, ?_, ?_⟩
      · simp only [roundRobinAtxProvider.getLoop, hsvc, hcall]
        exact hrun
      · rw [hcalls]
        simp
      · exact ⟨services[start], w1, hsvc, hcall, htie⟩
      · rw [List.length_cons, ringOrder_succ _ _ _ hstart, List.map_cons, hidx]
      · rcases hcases with ⟨h1, h2, h3, h4⟩ | ⟨h1, init, last, h2, h3, h4, h5, h6⟩
        · refine Or.inl ⟨h1, h2, by simp [h3], ?_⟩
          intro c hc
          rcases List.mem_cons.mp hc with rfl | hc
          · simp
          · exact h4 c hc
        · refine Or.inr ⟨h1, { index := start, atx := atx, err := some e } :: init, last,
            by simp [h2], by simp only [List.length_cons]; omega, ?_, h5, h6⟩
          intro c hc
          rcases List.mem_cons.mp hc with rfl | hc
          · simp
          · exact h4 c hc

/-- While the providers met in ring order answer with an error, the loop of
`Get` runs on. -/
theorem getLoop_skip {ATX W : Type} (services : List (AtxProvider ATX W)) (id : ATXID)
    (k : Nat) :
    ∀ (n start : Nat) (w : W) (calls : List (AtxCall ATX)), start < services.length →
      (∀ i, i < k → ∃ svc, services[(start + i) % services.length]? = some svc ∧
        atxFails svc id) →
      ∃ w1 recs,
        roundRobinAtxProvider.getLoop services id (n + k) start w calls =
          roundRobinAtxProvider.getLoop services id n ((start + k) % services.length) w1
            (calls ++ recs) ∧
        recs.map AtxCall.index = ringOrder services.length start k := by
  induction k with
  | zero =>
    intro n start w calls hstart _
    exact ⟨w, [], by simp [Nat.mod_eq_of_lt hstart], by simp [ringOrder]⟩
  | succ k ih =>
    intro n start w calls hstart hfail
    obtain ⟨svc, hsvc, hsvcfail⟩ := hfail 0 (Nat.succ_pos k)
    simp only [Nat.add_zero, Nat.mod_eq_of_lt hstart] at hsvc
    obtain ⟨atx, err, w1, hcall⟩ := hsvcfail w
    have hlen : 0 < services.length := lt_of_le_of_lt (Nat.zero_le _) hstart
    obtain ⟨w2, recs, hrest, hidx⟩ := ih n ((start + 1) % services.length) w1
      (calls ++ [{ index := start, atx := atx, err := some err }]) (Nat.mod_lt _ hlen)
      (by
        intro i hi
        obtain ⟨svc1, hsvc1, hf1⟩ := hfail (i + 1) (Nat.succ_lt_succ hi)
        refine ⟨svc1, ?_, hf1⟩
        rw [Nat.mod_add_mod, ← hsvc1]
        congr 2
        omega)
    refine ⟨w2, { index := start, atx := atx, err := some err } :: recs, ?_, ?_⟩
    · have hstep : roundRobinAtxProvider.getLoop services id (n + (k + 1)) start w calls =
          roundRobinAtxProvider.getLoop services id (n + k)
            ((start + 1) % services.length) w1
            (calls ++ [{ index := start, atx := atx, err := some err }]) := by
        show roundRobinAtxProvider.getLoop services id ((n + k) + 1) start w calls = _
        simp only [roundRobinAtxProvider.getLoop, hsvc, hcall]
      have hidx2 : start + 1 + k = start + (k + 1) := by omega
      rw [hstep, hrest]
      simp only [Nat.mod_add_mod, List.append_assoc, List.singleton_append, hidx2]
    · rw [List.map_cons, hidx, ringOrder_succ _ _ _ hstart]

/-- C11: over `N ≥ 1` providers and from any last-used index below `N`, `Get`
returns, and the calls it made are answers of the providers themselves: asked
for the requested id, one after the other from the initial world, in ring order
from the last-used provider, each provider at most once. It returns an
`AtxNotFoundError` for the requested id if and only if it made `N` calls and
every one of them answered with a non-nil error, and then each provider was
called exactly once. Otherwise it returns a nil error and the ATX answered by
the last provider it called, which is the first one in ring order to answer
with a nil error; no provider is called after that one. In particular, when all
`N` providers answer the id with a non-nil error the result is the
`AtxNotFoundError`, and when the first `k < N` providers in ring order answer
with a non-nil error and the next one answers `(atx, nil)`, the result is
`(atx, nil)` after exactly these `k + 1` calls. -/
theorem atx_not_found_iff_all_providers_fail {ATX W : Type} (a : roundRobinAtxProvider ATX W)
    (w : W) (id : ATXID) (_hN : 1 ≤ a.services.length)
    (hstart : a.lastUsedSvc < a.services.length) :
    ∃ res, a.Get w id = .returned res ∧
      answersInOrder a.services id w res.calls res.world ∧
      res.calls.map AtxCall.index =
        ringOrder a.services.length a.lastUsedSvc res.calls.length ∧
      res.calls.length ≤ a.services.length ∧
      (res.calls.map AtxCall.index).Nodup ∧
      (res.err = some { id := id } ↔
        (res.calls.length = a.services.length ∧ ∀ c, c ∈ res.calls → c.err ≠ none)) ∧
      (res.err = some { id := id } →
        res.atx = none ∧
        ∀ j, j < a.services.length → (res.calls.map AtxCall.index).count j = 1) ∧
      (res.err ≠ some { id := id } →
        res.err = none ∧
        ∃ init last, res.calls = init ++ [last] ∧ (∀ c, c ∈ init → c.err ≠ none) ∧
          last.err = none ∧ res.atx = last.atx) ∧
      ((∀ i, i < a.services.length → ∃ svc, a.services[i]? = some svc ∧ atxFails svc id) →
        res.err = some { id := id } ∧ res.atx = none ∧
        res.calls.map AtxCall.index =
          ringOrder a.services.length a.lastUsedSvc a.services.length) ∧
      (∀ (k : Nat) (atx : Option ATX), k < a.services.length →
        (∀ i, i < k →
          ∃ svc, a.services[(a.lastUsedSvc + i) % a.services.length]? = some svc ∧
            atxFails svc id) →
        (∃ svc, a.services[(a.lastUsedSvc + k) % a.services.length]? = some svc ∧
          atxSucceedsWith svc id atx) →
        res.err = none ∧ res.atx = atx ∧
        res.calls.map AtxCall.index = ringOrder a.services.length a.lastUsedSvc (k + 1) ∧
        res.lastUsedSvc = (a.lastUsedSvc + k) % a.services.length) := by
  obtain ⟨res, fresh, hrun, hcalls, htie, hidx, hcases⟩ :=
    getLoop_spec a.services id a.services.length a.lastUsedSvc w [] hstart
  rw [List.nil_append] at hcalls
  subst hcalls
  have hlen : res.calls.length ≤ a.services.length := by
    rcases hcases with ⟨_, _, h3, _⟩ | ⟨_, init, last, h2, h3, _⟩
    · exact le_of_eq h3
    · rw [h2, List.length_append, List.length_singleton]
      omega
  refine ⟨res, hrun, htie, hidx, hlen, ?_, ?_, ?_, ?_, ?_, ?_⟩
  · rw [hidx]
    exact ringOrder_nodup _ _ _ hlen
  · rcases hcases with ⟨h1, _, h3, h4⟩ | ⟨h1, init, last, h2, _, _, h5, _⟩
    · exact ⟨fun _ => ⟨h3, h4⟩, fun _ => h1⟩
    · constructor
      · intro h
        rw [h1] at h
        cases h
      · intro h
        exact absurd h5 (h.2 last (by rw [h2]; simp))
  · intro herr
    rcases hcases with ⟨_, h2, h3, _⟩ | ⟨h1, _⟩
    · refine ⟨h2, ?_⟩
      intro j hj
      rw [hidx, h3]
      exact List.count_eq_one_of_mem (ringOrder_nodup _ _ _ (le_refl _))
        (mem_ringOrder_full _ _ j hstart hj)
    · rw [h1] at herr
      cases herr
  · intro herr
    rcases hcases with ⟨h1, _⟩ | ⟨h1, init, last, h2, _, h4, h5, h6⟩
    · exact absurd h1 herr
    · exact ⟨h1, init, last, h2, h4, h5, h6⟩
  · intro hall
    obtain ⟨w1, recs, hskip, hrecs⟩ := getLoop_skip a.services id a.services.length 0
      a.lastUsedSvc w [] hstart (fun i _ => hall _ (Nat.mod_lt _ _hN))
    rw [Nat.zero_add] at hskip
    rw [hskip] at hrun
    simp only [roundRobinAtxProvider.getLoop, List.nil_append, Outcome.returned.injEq] at hrun
    rw [← hrun]
    exact ⟨rfl, rfl, hrecs⟩
  · intro k atx hk hfail hok
    obtain ⟨m, hm⟩ : ∃ m, a.services.length = (m + 1) + k :=
      ⟨a.services.length - k - 1, by omega⟩
    obtain ⟨w1, recs, hskip, hrecs⟩ := getLoop_skip a.services id k (m + 1)
      a.lastUsedSvc w [] hstart hfail
    obtain ⟨svc, hsvc, hsvcok⟩ := hok
    obtain ⟨w2, hcall⟩ := hsvcok w1
    have hget : roundRobinAtxProvider.getLoop a.services id a.services.length
        a.lastUsedSvc w [] =
        roundRobinAtxProvider.getLoop a.services id (m + 1 + k) a.lastUsedSvc w [] := by
      rw [← hm]
    rw [hget, hskip] at hrun
    simp only [roundRobinAtxProvider.getLoop, hsvc, hcall, List.nil_append,
      Outcome.returned.injEq] at hrun
    rw [← hrun]
    refine ⟨rfl, rfl, ?_, rfl⟩
    simp only [List.map_append, List.map_cons, List.map_nil, hrecs]
    exact (ringOrder_snoc _ _ _).symm

theorem missingAtxProvider_fails (id : ATXID) : atxFails missingAtxProvider id :=
  fun _ => ⟨_, _, _, rfl⟩

theorem lengthAtxProvider_succeeds (id : ATXID) :
    atxSucceedsWith lengthAtxProvider id (some id.length) :=
  fun _ => ⟨_, rfl⟩

theorem atx_not_found_iff_all_providers_fail_witness :
    (match roundRobinAtxProvider.Get
        { services := [lengthAtxProvider, missingAtxProvider, missingAtxProvider],
          lastUsedSvc := 1 } 0 [7, 7] with
      | .returned res =>
          some (res.atx, res.err, res.lastUsedSvc, res.world, res.calls.map AtxCall.index)
      | _ => none) = some (some 2, none, 0, 3, [1, 2, 0]) ∧
    (match roundRobinAtxProvider.Get
        { services := [missingAtxProvider, missingAtxProvider], lastUsedSvc := 1 } 0 [7, 7] with
      | .returned res =>
          some (res.atx, res.err, res.lastUsedSvc, res.world, res.calls.map AtxCall.index)
      | _ => none) = some (none, some { id := [7, 7] }, 1, 2, [1, 0]) ∧
    (∃ res, roundRobinAtxProvider.Get
        { services := [lengthAtxProvider, missingAtxProvider, missingAtxProvider],
          lastUsedSvc := 1 } 0 [7, 7] = .returned res ∧
      res.err = none ∧ res.atx = some 2 ∧
      res.calls.map AtxCall.index = ringOrder 3 1 (2 + 1) ∧
      res.lastUsedSvc = (1 + 2) % 3) ∧
    (∃ res, roundRobinAtxProvider.Get
        { services := [missingAtxProvider, missingAtxProvider], lastUsedSvc := 1 } 0 [7, 7] =
          .returned res ∧
      res.err = some { id := [7, 7] } ∧ res.atx = none ∧
      res.calls.map AtxCall.index = ringOrder 2 1 2) := by
  refine ⟨rfl, rfl, ?_, ?_⟩
  · obtain ⟨res, hrun, _, _, _, _, _, _, _, _, hsucc⟩ :=
      atx_not_found_iff_all_providers_fail
        { services := [lengthAtxProvider, missingAtxProvider, missingAtxProvider],
          lastUsedSvc := 1 } (0 : Nat) [7, 7] (by decide) (by decide)
    exact ⟨res, hrun, hsucc 2 (some 2) (by decide)
      (fun i hi => by
        interval_cases i <;> exact ⟨missingAtxProvider, rfl, missingAtxProvider_fails _⟩)
      ⟨lengthAtxProvider, rfl, lengthAtxProvider_succeeds _⟩⟩
  · obtain ⟨res, hrun, _, _, _, _, _, _, _, hall, _⟩ :=
      atx_not_found_iff_all_providers_fail
        { services := [missingAtxProvider, missingAtxProvider], lastUsedSvc := 1 }
        (0 : Nat) [7, 7] (by decide) (by decide)
    exact ⟨res, hrun, hall (fun i hi => by
      have hi2 : i < 2 := hi
      interval_cases i <;> exact ⟨missingAtxProvider, rfl, missingAtxProvider_fails _⟩)⟩

/-! ## The prover call of `execute` -/

theorem execute_prover_call {T : Type} (M : MerklePrimitive T) (P : Prover) (r r2 : round)
    (env : ExecEnv) (h : r.execute M P env = .returned (r2, none)) :
    ∃ rb : round, r2.execution.NIP =
      (rb.runProver (P.GenerateProof
        { labelHashStatement := r2.execution.Statement
          merkleHashStatement := r2.execution.Statement
          numLeaves := r.execution.NumLeaves
          securityParam := r.execution.SecurityParam
          minMemoryLayer := minMemoryLayer P r.cfg })).2.1 := by
  unfold round.execute at h
  simp only at h
  split at h
  · simp at h
  · rename_i ra hsave1
    split at h
    · simp at h
    · rename_i c hc
      split at h
      · simp at h
      · split at h
        · simp at h
        · rename_i members statement hcalc
          split at h
          · simp at h
          · rename_i rb hsave2
            split at h
            · simp at h
            · rename_i rc nip hrun
              split at h
              · simp at h
              · rename_i rd hsave3
                split at h
                · simp at h
                · rename_i c2 hc2
                  have e1 := saveState_eq hsave1
                  have e2 := saveState_eq hsave2
                  have e3 := saveState_eq hsave3
                  have e4 := runProver_eq hrun
                  simp only at e1 e2 e3 e4
                  simp only [Outcome.returned.injEq, Prod.mk.injEq, and_true] at h
                  subst h
                  refine ⟨rb, ?_⟩
                  have hst : rd.execution.Statement = rb.execution.Statement := by
                    rw [e3.1]
                    exact e4.2.1
                  have hnl : rb.execution.NumLeaves = r.execution.NumLeaves := by
                    rw [e2.1]
                    simp only
                    rw [e1.1]
                  have hsp : rb.execution.SecurityParam = r.execution.SecurityParam := by
                    rw [e2.1]
                    simp only
                    rw [e1.1]
                  have hcfg : rb.cfg = r.cfg := by
                    rw [e2.2.2.2.1, e1.2.2.2.1]
                  rw [hst, ← hnl, ← hsp, ← hcfg, hrun, e3.1]

/-! ## The clamp of `minMemoryLayer` -/

/-- C13, as amended: for 64-bit unsigned `N` and `MemoryLayers` and a prover
floor between 0 and `2^63 - 1`, the `minMemoryLayer` that `execute` passes to
the prover is never below the floor, and it equals
`max(N - MemoryLayers, floor)`, the subtraction taken over the integers,
whenever that difference fits a signed 64-bit integer (in particular when
`MemoryLayers > N` and both are below `2^63`). -/
theorem minMemoryLayer_is_clamped_difference (P : Prover) (cfg : Config)
    (hN : cfg.N < 2 ^ 64) (hML : cfg.MemoryLayers < 2 ^ 64)
    (hfloor : 0 ≤ P.LowestMerkleMinMemoryLayer)
    (hfloor' : P.LowestMerkleMinMemoryLayer < 2 ^ 63) :
    P.LowestMerkleMinMemoryLayer ≤ (minMemoryLayer P cfg : Int) ∧
      (-(2 ^ 63) ≤ (cfg.N : Int) - cfg.MemoryLayers →
        (cfg.N : Int) - cfg.MemoryLayers < 2 ^ 63 →
        (minMemoryLayer P cfg : Int) =
          max ((cfg.N : Int) - cfg.MemoryLayers) P.LowestMerkleMinMemoryLayer) ∧
      (∀ (T : Type) (M : MerklePrimitive T) (r r2 : round) (env : ExecEnv),
        r.cfg = cfg → r.execute M P env = .returned (r2, none) →
        ∃ rb : round, r2.execution.NIP =
          (rb.runProver (P.GenerateProof
            { labelHashStatement := r2.execution.Statement
              merkleHashStatement := r2.execution.Statement
              numLeaves := r.execution.NumLeaves
              securityParam := r.execution.SecurityParam
              minMemoryLayer := minMemoryLayer P cfg })).2.1) := by
  have h64 : (2 : Nat) ^ 64 = 18446744073709551616 := by norm_num
  have h63 : (2 : Nat) ^ 63 = 9223372036854775808 := by norm_num
  have h64i : (2 : Int) ^ 64 = 18446744073709551616 := by norm_num
  have h63i : (2 : Int) ^ 63 = 9223372036854775808 := by norm_num
  rw [h64] at hN hML
  rw [h63i] at hfloor'
  refine ⟨?_, ?_, ?_⟩
  · simp only [minMemoryLayer, toInt64, toUint64, h64, h63, h64i, h63i]
    split <;> split <;> omega
  · intro hlo hhi
    rw [h63i] at hlo hhi
    simp only [minMemoryLayer, toInt64, toUint64, h64, h63, h64i, h63i]
    split <;> split <;> omega
  · intro T M r r2 env hcfg hexec
    rw [← hcfg]
    exact execute_prover_call M P r r2 env hexec

/-- C13 as stated fails at the ends of the unsigned range: with `N = 2^63` and
`MemoryLayers = 0` the value passed to the prover is the floor 1, not
`max(2^63, 1)`; with `N = 0` and `MemoryLayers = 2^63 + 1` it is `2^63 - 1`,
not `max(-(2^63 + 1), 1) = 1`. -/
theorem minMemoryLayer_wraps_at_the_ends :
    minMemoryLayer echoProver { N := 9223372036854775808, MemoryLayers := 0 } = 1 ∧
      max ((9223372036854775808 : Int) - 0) echoProver.LowestMerkleMinMemoryLayer =
        9223372036854775808 ∧
      minMemoryLayer echoProver { N := 0, MemoryLayers := 9223372036854775809 } =
        9223372036854775807 ∧
      max ((0 : Int) - 9223372036854775809) echoProver.LowestMerkleMinMemoryLayer = 1 := by
  refine ⟨by decide, by decide, by decide, by decide⟩

theorem minMemoryLayer_is_clamped_difference_witness :
    ((minMemoryLayer echoProver { N := 3, MemoryLayers := 5 } : Nat) : Int) =
        max (((3 : Nat) : Int) - ((5 : Nat) : Int)) 1 ∧
      minMemoryLayer echoProver { N := 3, MemoryLayers := 5 } = 1 ∧
      minMemoryLayer echoProver { N := 30, MemoryLayers := 5 } = 25 :=
  ⟨(minMemoryLayer_is_clamped_difference echoProver { N := 3, MemoryLayers := 5 }
      (by norm_num) (by norm_num) (by decide) (by decide)).2.1 (by norm_num) (by norm_num),
    by decide, by decide⟩

/-! ## The cache key -/

/-- C14: the cache key of the caching verifier is `sha256` applied to the
concatenation `challenge ++ signature`. For a verifier of capacity at least 1
and two requests with equal concatenations, when a `Verify` of the first ends
with a nil error or with an error that is `ErrChallengeInvalid`, its result is
held under the key of the second, and a `Verify` of the second that follows
immediately returns the first's hash and error, makes no downstream call and
leaves the world as it was. -/
theorem cache_key_is_hash_of_concatenation {W : Type} (sha256 : Bytes → Bytes)
    (a : cachingChallengeVerifier W) (w : W) (c1 s1 c2 s2 : Bytes)
    (hcap : 1 ≤ a.cache.size) (hcat : c1 ++ s1 = c2 ++ s2)
    (hterminal : (a.Verify sha256 w c1 s1).err = none ∨
      errorsIsOpt (a.Verify sha256 w c1 s1).err .ErrChallengeInvalid = true) :
    (a.Verify sha256 w c1 s1).self.cache.Contains (sha256 (c2 ++ s2)) = true ∧
    ((a.Verify sha256 w c1 s1).self.Verify sha256 (a.Verify sha256 w c1 s1).world c2 s2).hash =
      (a.Verify sha256 w c1 s1).hash ∧
    ((a.Verify sha256 w c1 s1).self.Verify sha256 (a.Verify sha256 w c1 s1).world c2 s2).err =
      (a.Verify sha256 w c1 s1).err ∧
    ((a.Verify sha256 w c1 s1).self.Verify sha256
      (a.Verify sha256 w c1 s1).world c2 s2).downstreamCalls = 0 ∧
    ((a.Verify sha256 w c1 s1).self.Verify sha256 (a.Verify sha256 w c1 s1).world c2 s2).world =
      (a.Verify sha256 w c1 s1).world := by
  have hhead : ∃ v rest,
      (a.Verify sha256 w c1 s1).self.cache.items = (sha256 (c2 ++ s2), v) :: rest ∧
      v.hash = (a.Verify sha256 w c1 s1).hash ∧ v.err = (a.Verify sha256 w c1 s1).err := by
    rw [← hcat]
    cases hc : a.cache.Contains (sha256 (c1 ++ s1)) with
    | true =>
      obtain ⟨v, rest, hh, he, _, _, hitems⟩ := verify_hit sha256 a w c1 s1 hc
      exact ⟨v, rest, hitems, hh.symm, he.symm⟩
    | false =>
      obtain ⟨hh, he, _, _, hcache⟩ := verify_miss sha256 a w c1 s1 hc
      have hcond : ((a.verifier w c1 s1).1.2 == none ||
          errorsIsOpt (a.verifier w c1 s1).1.2 .ErrChallengeInvalid) = true := by
        rw [he] at hterminal
        rcases hterminal with h | h
        · simp [h]
        · simp [h]
      rw [hcond, if_pos rfl] at hcache
      obtain ⟨rest, hitems, _⟩ := Cache.Add_head a.cache (sha256 (c1 ++ s1))
        { hash := (a.verifier w c1 s1).1.1, err := (a.verifier w c1 s1).1.2 } hcap
      rw [← hcache] at hitems
      exact ⟨_, rest, hitems, hh.symm, he.symm⟩
  obtain ⟨v, rest, hitems, hvh, hve⟩ := hhead
  obtain ⟨h2h, h2e, h2w, h2d⟩ := verify_head sha256 (a.Verify sha256 w c1 s1).self
    (a.Verify sha256 w c1 s1).world c2 s2 v rest hitems
  refine ⟨?_, by rw [h2h, hvh], by rw [h2e, hve], h2d, h2w⟩
  simp [Cache.Contains, hitems]

theorem cache_key_is_hash_of_concatenation_witness :
    (cachingOverAccepting.Verify plainHash 0 [97, 98] [99]).hash = some [97, 98] ∧
      (cachingOverAccepting.Verify plainHash 0 [97, 98] [99]).downstreamCalls = 1 ∧
      ((cachingOverAccepting.Verify plainHash 0 [97, 98] [99]).self.Verify plainHash
          (cachingOverAccepting.Verify plainHash 0 [97, 98] [99]).world [97] [98, 99]).hash =
        (cachingOverAccepting.Verify plainHash 0 [97, 98] [99]).hash ∧
      ((cachingOverAccepting.Verify plainHash 0 [97, 98] [99]).self.Verify plainHash
          (cachingOverAccepting.Verify plainHash 0 [97, 98] [99]).world [97]
          [98, 99]).downstreamCalls = 0 :=
  ⟨rfl, rfl,
    (cache_key_is_hash_of_concatenation plainHash cachingOverAccepting 0 [97, 98] [99] [97]
      [98, 99] (by decide) rfl (Or.inl rfl)).2.1,
    (cache_key_is_hash_of_concatenation plainHash cachingOverAccepting 0 [97, 98] [99] [97]
      [98, 99] (by decide) rfl (Or.inl rfl)).2.2.2.1⟩

/-! ## Recovery and the statement given to the prover -/

/-- What a `recoverExecution` that returns nil has recorded and what it gave to
the prover: the hash functions are generated from the statement of the loaded
state in both branches, while the recorded statement is the loaded one only
when the loaded state has members and statement, and the recomputed one
otherwise. -/
theorem recoverExecution_prover_call {T : Type} (M : MerklePrimitive T) (P : Prover)
    (r r2 : round) (state : executionState) (env : RecoverEnv)
    (h : r.recoverExecution M P state env = .returned (r2, none)) :
    (∃ rb : round, r2.execution.NIP =
      (rb.runProver (P.GenerateProofRecovery
        { labelHashStatement := state.Statement
          merkleHashStatement := state.Statement
          numLeaves := state.NumLeaves
          securityParam := state.SecurityParam
          nextLeafID := state.NextLeafID
          parkedNodes := state.ParkedNodes })).2.1) ∧
    (state.Members ≠ none → state.Statement ≠ none →
      r2.execution.Members = state.Members ∧ r2.execution.Statement = state.Statement) ∧
    (state.Members = none ∨ state.Statement = none →
      r.calcMembersAndStatement M = (r2.execution.Members, r2.execution.Statement, none)) := by
  unfold round.recoverExecution at h
  split at h
  · simp at h
  · rename_i cache hcache
    simp only at h
    split at h
    · simp at h
    · rename_i c hc
      split at h
      · simp at h
      · rename_i ra hstep
        split at h
        · simp at h
        · rename_i rc nip hrun
          have e4 := runProver_eq hrun
          split at h
          · simp at h
          · rename_i rd hsave
            have e3 := saveState_eq hsave
            split at h
            · simp at h
            · simp only [Outcome.returned.injEq, Prod.mk.injEq, and_true] at h
              subst h
              simp only at e3
              have hM2 : rd.execution.Members = ra.execution.Members := by
                rw [e3.1]
                exact e4.1
              have hS2 : rd.execution.Statement = ra.execution.Statement := by
                rw [e3.1]
                exact e4.2.1
              refine ⟨⟨ra, ?_⟩, ?_, ?_⟩
              · show rd.execution.NIP = _
                rw [hrun, e3.1]
              · intro hm hs
                show rd.execution.Members = _ ∧ rd.execution.Statement = _
                rw [hM2, hS2]
                have hcond : (state.Members != none && state.Statement != none) = true := by
                  simp [hm, hs]
                rw [hcond, if_pos rfl] at hstep
                simp only [Prod.mk.injEq, and_true] at hstep
                rw [← hstep]
                exact ⟨rfl, rfl⟩
              · intro hnone
                show _ = (rd.execution.Members, rd.execution.Statement, none)
                rw [hM2, hS2]
                have hcond : (state.Members != none && state.Statement != none) = false := by
                  rcases hnone with hn | hn <;> simp [hn]
                rw [hcond] at hstep
                simp only [Bool.false_eq_true, if_false] at hstep
                split at hstep
                · simp at hstep
                · rename_i members statement hcalc
                  have e5 := saveState_eq hstep
                  rw [e5.1]
                  simp only
                  rw [← hcalc]
                  exact calcMembersAndStatement_congr M _ _ rfl

/-- C12 fails in the branch that recomputes: on a round recovered over a store
holding `[1]` and `[2]` from a state file without members and statement,
`recoverExecution` returns nil having recorded the statement `[1, 2]` (the one
`proof()` then returns), while the prover's hash functions were generated from
the nil statement of the loaded state; `execute` over the same store generates
them from `[1, 2]`. -/
theorem recoverExecution_prover_statement_differs :
    (match recoveredRound.recoverExecution listMerkle recordingProver stateWithoutMembers
        quietRecoverEnv with
      | .returned (r2, err) =>
          some (err, r2.execution.Members, r2.execution.Statement,
            r2.execution.NIP.map (fun nip => (nip.ProvenLeaves, nip.ProofNodes)),
            (match r2.proof false with
              | .returned (some p, _) => p.Statement
              | _ => none))
      | _ => none) =
        some (none, some [[1], [2]], some [1, 2], some ([], []), some [1, 2]) ∧
    (match sampleOpenRound.execute listMerkle recordingProver quietEnv with
      | .returned (r2, err) =>
          some (err, r2.execution.Members, r2.execution.Statement,
            r2.execution.NIP.map (fun nip => (nip.ProvenLeaves, nip.ProofNodes)))
      | _ => none) =
        some (none, some [[1], [2]], some [1, 2], some ([[1, 2]], [[1, 2]])) :=
  ⟨rfl, rfl⟩

/-! ## The submit mutex on the error path of `execute` -/

/-- When `execute` gets as far as `calcMembersAndStatement` and that call
returns an error, `execute` returns this error with the submit mutex held. -/
theorem execute_returns_holding_mutex {T : Type} (M : MerklePrimitive T) (P : Prover)
    (r r2 : round) (env : ExecEnv) (e : Option Error) (err : Error)
    (hsave : env.save1 = none) (hcalc : (r.calcMembersAndStatement M).2.2 = some err)
    (h : r.execute M P env = .returned (r2, e)) :
    e = some err ∧ r2.submitMtx = true := by
  unfold round.execute at h
  simp only [round.saveState, hsave] at h
  split at h
  · simp at h
  · split at h
    · simp at h
    · split at h
      · rename_i members statement err' hcalc'
        have hc : round.calcMembersAndStatement M r = (members, statement, some err') := by
          rw [← hcalc']
          exact calcMembersAndStatement_congr M _ _ rfl
        rw [hc] at hcalc
        simp only [Option.some.injEq] at hcalc
        simp only [Outcome.returned.injEq, Prod.mk.injEq] at h
        rw [← h.1, ← h.2, hcalc]
        exact ⟨rfl, rfl⟩
      · rename_i members statement hcalc'
        have hc : round.calcMembersAndStatement M r = (members, statement, none) := by
          rw [← hcalc']
          exact calcMembersAndStatement_congr M _ _ rfl
        rw [hc] at hcalc
        simp at hcalc

/-- C15 fails on the error path: over a store of three keys and a Merkle
primitive that refuses the third leaf, `execute` on an open round whose mutex
is free returns the primitive's error with the submit mutex still held. -/
theorem execute_error_path_keeps_mutex :
    threeKeyOpenRound.submitMtx = false ∧
      (match threeKeyOpenRound.execute smallMerkle echoProver quietEnv with
        | .returned (r2, err) => some (err, r2.submitMtx)
        | _ => none) = some (some (.new "tree is full"), true) ∧
      (match sampleOpenRound.execute smallMerkle echoProver quietEnv with
        | .returned (r2, err) => some (err, r2.submitMtx)
        | _ => none) = some (none, false) :=
  ⟨rfl, rfl, rfl⟩

end Poet
